import Mathlib

/-!
# Verification of the photo_captcha slider-CAPTCHA core

This file is a shallow embedding, in Lean 4, of the Go package `captcha`
(files service.go, slider.go, store.go, image.go, puzzle.go) together
with proofs and refutations of the specification claims about it.

Conventions of the embedding:

* Go `float64` values are modelled as exact rationals.  Every Go
  floating-point operation is correctly rounded (IEEE-754 binary64,
  round to nearest, ties to even), so it is modelled as `fl` applied to
  the exact rational result of the operation, where `fl : Q -> Q` is the
  rounding function defined below (normal range only; none of the values
  appearing in this program reach the subnormal or overflow ranges).
  Floating-point literals and constant expressions are replaced by the
  exact rational value of the `float64` nearest to them (Go evaluates
  untyped constant expressions with at least 256 bits of precision and
  then rounds once to `float64`).
* Go `math.Sqrt` is correctly rounded by the IEEE standard and is
  modelled exactly by `flSqrtNat` (it is only ever applied to
  nonnegative integer-valued arguments in this program).
* Go `math.Pow` carries no correct-rounding guarantee, so the piece
  smoothing passes that call it are parameterised by the function
  `powF : Q -> Q` standing for `fun x => math.Pow x 1.5`.  Likewise
  `math.Atan2` is modelled by a parameter `atan2F`.  No theorem in this
  file depends on the values of these functions beyond documented,
  Go-specified special cases supplied as hypotheses.
* Integer arithmetic on pixel sums fits comfortably below 2^32 (the
  bounds are noted at each definition), so Go `uint32` arithmetic is
  modelled by natural numbers, and the conversions `uint8(..)`,
  `uint32(..)` of nonnegative in-range values by truncation.
* Images (`image.RGBA`) are rectangles anchored at the origin holding
  8-bit RGBA pixels; `RGBAAt`/`At` return the zero pixel out of bounds
  and `SetRGBA` out of bounds is a no-op, exactly as in Go's image
  package.  Loops that write each pixel at most once and read only
  already-final pixels are translated pointwise; loops that read
  neighbours of pixels they may already have overwritten
  (`antiAliasEdges`, `smoothDiagonalEdges`, `globalSmooth`) are
  translated as left folds over the positions in the raster order of
  the Go loops.
-/

set_option maxRecDepth 100000

/-! ## Exact binary64 rounding over the rationals -/

/-- Fuel-driven base-2 logarithm on naturals: for `1 <= n < 2^fuel` it
returns the unique `j` with `2^j <= n < 2^(j+1)`.  (Fuel recursion is
used so that kernel reduction works on large literals.) -/
def natLog2F : ℕ → ℕ → ℕ
  | 0, _ => 0
  | fuel + 1, n => if n ≤ 1 then 0 else natLog2F fuel (n / 2) + 1

/-- Base-2 logarithm with self fuel: correct for every `n >= 1`. -/
def nlog2 (n : ℕ) : ℕ := natLog2F n n

/-- The exponent of a positive rational: the unique `e : Z` with
`2^e <= q < 2^(e+1)`. -/
def qexp (q : ℚ) : ℤ :=
  let a := q.num.toNat
  let b := q.den
  if b ≤ a then (nlog2 (a / b) : ℤ)
  else
    let j := nlog2 (b / a)
    if b ≤ a * 2 ^ j then -(j : ℤ) else -(j : ℤ) - 1

/-- Round a rational to the nearest integer, ties to even. -/
def rne (q : ℚ) : ℤ :=
  if q - ⌊q⌋ < 1 / 2 then ⌊q⌋
  else if (1 : ℚ) / 2 < q - ⌊q⌋ then ⌊q⌋ + 1
  else if 2 ∣ ⌊q⌋ then ⌊q⌋ else ⌊q⌋ + 1

/-- `2 ^ k` as a rational, for an integer exponent, computed through
natural-number powers so that it evaluates fast. -/
def zpow2 (k : ℤ) : ℚ :=
  if 0 ≤ k then ((2 ^ k.toNat : ℕ) : ℚ) else 1 / ((2 ^ (-k).toNat : ℕ) : ℚ)

/-- Round a positive rational to the binary64 grid (53-bit mantissa). -/
def flPos (q : ℚ) : ℚ :=
  (rne (q * zpow2 (52 - qexp q)) : ℚ) * zpow2 (qexp q - 52)

/-- IEEE-754 binary64 round-to-nearest-even of an exact rational
(normal range; neither subnormals nor overflow occur in this program). -/
def fl (q : ℚ) : ℚ :=
  if q = 0 then 0 else if 0 < q then flPos q else -flPos (-q)

/-- Fuel-driven integer square root by bisection, maintaining
`lo^2 <= n < hi^2`. -/
def isqrtAux (n : ℕ) : ℕ → ℕ → ℕ → ℕ
  | 0, lo, _ => lo
  | fuel + 1, lo, hi =>
    if hi ≤ lo + 1 then lo
    else
      let mid := (lo + hi) / 2
      if mid * mid ≤ n then isqrtAux n fuel mid hi else isqrtAux n fuel lo mid

/-- Integer square root (floor), total and kernel-computable. -/
def isqrt (n : ℕ) : ℕ := isqrtAux n (n + 2) 0 (n + 1)

/-- Exact model of Go `math.Sqrt(float64(n))` for a natural argument
`n < 2^104`: the binary64 value nearest to the real square root of `n`
(a tie is impossible because `sqrt n` is irrational unless `n` is a
perfect square). -/
def flSqrtNat (n : ℕ) : ℚ :=
  if n = 0 then 0
  else
    let e := nlog2 n / 2
    let k := 52 - e
    let N := n * 4 ^ k
    let s := isqrt N
    let m := if 4 * N < (2 * s + 1) ^ 2 then s else s + 1
    (m : ℚ) / ((2 ^ k : ℕ) : ℚ)

/-- Go conversion of a `float64` to an integer type: truncation toward
zero. -/
def goInt (q : ℚ) : ℤ := q.num / (q.den : ℤ)

/-- Go `uint8(..)` of a nonnegative in-range `float64`. -/
def u8 (q : ℚ) : ℕ := (goInt q).toNat % 256

/-- Go `uint32(..)` of a nonnegative in-range `float64`. -/
def u32 (q : ℚ) : ℕ := (goInt q).toNat % 2 ^ 32

/-! Constant `float64` values used by the pipeline.  Each constant
written `0.x` in the Go source denotes the binary64 value nearest to it;
we obtain that value by applying `fl` to the exact rational literal. -/

/-- binary64 value of the literal `0.4`. -/
def c04 : ℚ := fl (2 / 5)

/-- binary64 value of the literal `0.6`. -/
def c06 : ℚ := fl (3 / 5)

/-- binary64 value of the literal `0.15`. -/
def c015 : ℚ := fl (3 / 20)

/-- binary64 value of the literal `0.25` (exact). -/
def c025 : ℚ := 1 / 4

/-- binary64 value of the literal `0.05`. -/
def c005 : ℚ := fl (1 / 20)

/-- binary64 value of the literal `0.8`. -/
def c08 : ℚ := fl (4 / 5)

/-- binary64 value of the literal `0.2`. -/
def c02 : ℚ := fl (1 / 5)

/-- binary64 value of Go `math.Pi` (mantissa 7074237752028440, known
value of the IEEE double nearest to pi). -/
def cPi : ℚ := 884279719003555 / zpow2 48

/-- binary64 value of the Go constant expression `math.Pi / 2`
(halving is exact, so it has the same mantissa as `cPi`). -/
def cPiHalf : ℚ := 884279719003555 / zpow2 49

/-- binary64 value of the Go constant expression `2 * math.Pi`. -/
def cTwoPi : ℚ := 884279719003555 / zpow2 47

/-- binary64 value of the Go constant expression `math.Pi / 5`:
pi/5 = 0.62831853071795864769..., and pi/5 * 2^53 =
5659390201622752.22..., so the mantissa rounds to 5659390201622752. -/
def cPiFifth : ℚ := 5659390201622752 / zpow2 53

/-- binary64 value of the Go constant expression `2 * math.Pi / 5`
(double of `cPiFifth`, doubling being exact). -/
def cTwoPiFifth : ℚ := 5659390201622752 / zpow2 52

example : natLog2F 200 8 = 3 := by decide
example : nlog2 1 = 0 := by decide
example : qexp (1 / 2) = -1 := by with_unfolding_all decide
example : qexp 102 = 6 := by with_unfolding_all decide
example : rne (5 / 2) = 2 := by with_unfolding_all decide
example : rne (7 / 2) = 4 := by with_unfolding_all decide
example : (fl 102).num = 102 ∧ (fl 102).den = 1 := by with_unfolding_all decide
example : (fl (255 / 2)).num = 255 ∧ (fl (255 / 2)).den = 2 := by with_unfolding_all decide
example : c06.num = 5404319552844595 ∧ c06.den = 2 ^ 53 := by with_unfolding_all decide
example : c04.num = 3602879701896397 ∧ c04.den = 2 ^ 53 := by with_unfolding_all decide
example : isqrt 17 = 4 := by decide
example : (flSqrtNat 9).num = 3 ∧ (flSqrtNat 9).den = 1 := by with_unfolding_all decide

/-! ## Pixels, images and alpha masks

An `Img` models a Go `image.RGBA` whose bounds start at the origin:
`rgbaAt` returns the zero pixel out of bounds and `setRGBA` out of
bounds is a no-op, exactly like `RGBAAt` / `SetRGBA` on `image.RGBA`.
An `AlphaMask` models the fixed 70x70 `image.Alpha` produced by
`GeneratePuzzleMask`. -/

/-- The puzzle-piece dimensions from puzzle.go (`PuzzleWidth`,
`PuzzleHeight`). -/
def PuzzleWidth : ℤ := 70

/-- Puzzle height constant (70). -/
def PuzzleHeight : ℤ := 70

/-- One 8-bit RGBA pixel (each channel a natural number below 256). -/
structure Pix where
  r : ℕ
  g : ℕ
  b : ℕ
  a : ℕ
deriving DecidableEq, Repr

/-- The zero pixel, returned by Go `RGBAAt` out of bounds. -/
def Pix.zero : Pix := ⟨0, 0, 0, 0⟩

/-- An RGBA image with bounds `[0, w) x [0, h)`. -/
structure Img where
  w : ℤ
  h : ℤ
  pix : ℤ → ℤ → Pix

/-- Go `(*image.RGBA).RGBAAt`: the stored pixel in bounds, the zero
pixel out of bounds. -/
def Img.rgbaAt (img : Img) (x y : ℤ) : Pix :=
  if 0 ≤ x ∧ x < img.w ∧ 0 ≤ y ∧ y < img.h then img.pix x y else Pix.zero

/-- Go `(*image.RGBA).SetRGBA`: functional update, no-op out of
bounds. -/
def Img.setRGBA (img : Img) (x y : ℤ) (p : Pix) : Img :=
  { img with
    pix := fun u v =>
      if u = x ∧ v = y ∧ 0 ≤ x ∧ x < img.w ∧ 0 ≤ y ∧ y < img.h then p
      else img.pix u v }

/-- A 70x70 single-channel opacity mask (a Go `image.Alpha` of bounds
`(0,0)-(70,70)`); `alphaAt` is zero out of bounds like Go `AlphaAt`. -/
structure AlphaMask where
  alphaOf : ℤ → ℤ → ℕ

/-- Go `(*image.Alpha).AlphaAt(..).A`. -/
def AlphaMask.alphaAt (m : AlphaMask) (x y : ℤ) : ℕ :=
  if 0 ≤ x ∧ x < 70 ∧ 0 ≤ y ∧ y < 70 then m.alphaOf x y else 0

/-! ## The session store (store.go)

`MemoryStore` holds the map `data`, the ttl and nothing else (the
background cleanup goroutine only calls `CleanExpired`, which is
irrelevant to the claims below).  Time is passed explicitly: `now` is
the value of `time.Now()` at the call, in nanoseconds. -/

/-- store.go `CaptchaData`. -/
structure CaptchaData where
  id : String
  positionX : ℤ
  positionY : ℤ
  createdAt : ℤ
deriving DecidableEq, Repr

/-- store.go `MemoryStore` (the map plus the ttl). -/
structure MemoryStore where
  data : String → Option CaptchaData
  ttl : ℤ

/-- store.go `NewMemoryStore` (with an empty map). -/
def NewMemoryStore (ttl : ℤ) : MemoryStore := ⟨fun _ => none, ttl⟩

/-- store.go `(*MemoryStore).Set`: stores the record after stamping
`CreatedAt = time.Now()`. -/
def MemoryStore.Set (m : MemoryStore) (id : String) (d : CaptchaData) (now : ℤ) : MemoryStore :=
  { m with data := fun k => if k = id then some { d with createdAt := now } else m.data k }

/-- store.go `(*MemoryStore).Get`: a hit only if present and not older
than the ttl (`time.Since(data.CreatedAt) > m.ttl` misses). -/
def MemoryStore.Get (m : MemoryStore) (id : String) (now : ℤ) : Option CaptchaData :=
  match m.data id with
  | none => none
  | some d => if m.ttl < now - d.createdAt then none else some d

/-- store.go `(*MemoryStore).Delete`. -/
def MemoryStore.Delete (m : MemoryStore) (id : String) : MemoryStore :=
  { m with data := fun k => if k = id then none else m.data k }

/-- The result pair `(bool, error)` returned by slider.go `Verify`:
`err msg` models `(false, errors.New msg)`, `ok b` models `(b, nil)`. -/
inductive VerifyResult where
  | err (msg : String)
  | ok (b : Bool)
deriving DecidableEq, Repr

/-- slider.go `abs`. -/
def absGo (x : ℤ) : ℤ := if x < 0 then -x else x

/-- slider.go `Verify`: looks the session up, compares the offset
against the stored `PositionX` within `tolerance`, and deletes the
entry only in the `success` branch (the code reads
`if success { Delete(id) }`).  Returns the result together with the
store state after the call. -/
def Verify (store : MemoryStore) (id : String) (userX tolerance : ℤ) (now : ℤ) :
    VerifyResult × MemoryStore :=
  match store.Get id now with
  | none => (.err "captcha not found or expired", store)
  | some data =>
    let diff := absGo (userX - data.positionX)
    let success := diff ≤ tolerance
    if success then (.ok true, store.Delete id) else (.ok false, store)

/-- slider.go `VerifyWithTolerance`: `Verify` with the default
tolerance of 5 pixels. -/
def VerifyWithTolerance (store : MemoryStore) (id : String) (userX : ℤ) (now : ℤ) :
    VerifyResult × MemoryStore :=
  Verify store id userX 5 now

/-! ## Placement selection (service.go `Generate`, lines 163-195; the
identical block also appears in slider.go `Generate`)

The `rand.Intn` draw is modelled by a parameter `r : N`; `rand.Intn n`
panics for `n <= 0`, which is modelled by `none`, and otherwise returns
a value in `[0, n)`, modelled as `r % n` so that every possible draw is
covered.  `int(float64(imgWidth) * 0.25)` is evaluated with the exact
float model (`0.25` and `0.15` denote their binary64 values). -/

/-- The X coordinate chosen by the placement block of `Generate`, as a
function of the canvas width and the random draw. -/
def choosePlacementX (imgWidth : ℤ) (r : ℕ) : Option ℤ :=
  let centerX := imgWidth / 2
  let offsetRangeX := goInt (fl (fl (imgWidth : ℚ) * c025))
  let minX0 := centerX - offsetRangeX
  let maxX0 := centerX + offsetRangeX - PuzzleWidth
  let minX1 := if minX0 < 0 then 0 else minX0
  let maxX1 := if imgWidth - PuzzleWidth < maxX0 then imgWidth - PuzzleWidth else maxX0
  let maxX2 := if maxX1 < minX1 then minX1 + PuzzleWidth else maxX1
  if maxX2 - minX1 ≤ 0 then none
  else some ((r : ℤ) % (maxX2 - minX1) + minX1)

/-- The Y coordinate chosen by the placement block of `Generate`
(same shape as `choosePlacementX` with the 0.15 band and
`PuzzleHeight`). -/
def choosePlacementY (imgHeight : ℤ) (r : ℕ) : Option ℤ :=
  let centerY := imgHeight / 2
  let offsetRangeY := goInt (fl (fl (imgHeight : ℚ) * c015))
  let minY0 := centerY - offsetRangeY
  let maxY0 := centerY + offsetRangeY - PuzzleHeight
  let minY1 := if minY0 < 0 then 0 else minY0
  let maxY1 := if imgHeight - PuzzleHeight < maxY0 then imgHeight - PuzzleHeight else maxY0
  let maxY2 := if maxY1 < minY1 then minY1 + PuzzleHeight else maxY1
  if maxY2 - minY1 ≤ 0 then none
  else some ((r : ℤ) % (maxY2 - minY1) + minY1)

example : choosePlacementX 70 0 = some 18 := by with_unfolding_all decide
example : choosePlacementX 70 69 = some 87 := by with_unfolding_all decide
example : choosePlacementX 140 0 = none := by with_unfolding_all decide
example : choosePlacementX 1920 0 = some 480 := by with_unfolding_all decide

/-! ## The resampler (image.go `ResizeImage`)

Bilinear scaling.  The source-coordinate computation
`float64(x) * float64(srcW) / float64(width)` is carried out in
binary64 and is modelled with `fl` around each operation.  The blending
is Go `uint32` arithmetic on 16-bit channel values obtained from
`color.RGBA.RGBA()` (which returns `c * 0x101`); every intermediate is
at most `65535 * 65535 < 2^32`, so natural-number arithmetic models it
exactly.  `uint32(fx * 65535)` is at most 65535 because
`fx = srcX - float64(x0)` lies in `[0, 1]`. -/

/-- image.go `ResizeImage`: bilinear resize of `src` to
`width x height`. -/
def ResizeImage (src : Img) (width height : ℤ) : Img :=
  ⟨width, height, fun x y =>
    if 0 ≤ x ∧ x < width ∧ 0 ≤ y ∧ y < height then
      let srcW := src.w
      let srcH := src.h
      let srcX := fl (fl (fl (x : ℚ) * fl (srcW : ℚ)) / fl (width : ℚ))
      let srcY := fl (fl (fl (y : ℚ) * fl (srcH : ℚ)) / fl (height : ℚ))
      let x0 := goInt srcX
      let y0 := goInt srcY
      let x1 := if srcW ≤ x0 + 1 then srcW - 1 else x0 + 1
      let y1 := if srcH ≤ y0 + 1 then srcH - 1 else y0 + 1
      let c00 := src.rgbaAt x0 y0
      let c01 := src.rgbaAt x0 y1
      let c10 := src.rgbaAt x1 y0
      let c11 := src.rgbaAt x1 y1
      let fx := fl (srcX - fl (x0 : ℚ))
      let fy := fl (srcY - fl (y0 : ℚ))
      let wx := u32 (fl (fx * 65535))
      let wy := u32 (fl (fy * 65535))
      let wxInv := 65535 - wx
      let wyInv := 65535 - wy
      let blend := fun (v00 v01 v10 v11 : ℕ) =>
        (v00 * 257 * wxInv + v10 * 257 * wx) / 65535 * wyInv / 65535 +
          (v01 * 257 * wxInv + v11 * 257 * wx) / 65535 * wy / 65535
      let rr := blend c00.r c01.r c10.r c11.r
      let gg := blend c00.g c01.g c10.g c11.g
      let bb := blend c00.b c01.b c10.b c11.b
      let aa := blend c00.a c01.a c10.a c11.a
      ⟨rr / 2 ^ 8 % 256, gg / 2 ^ 8 % 256, bb / 2 ^ 8 % 256, aa / 2 ^ 8 % 256⟩
    else Pix.zero⟩

/-- The width used in the C7 counterexample: `3 * 2^45 + 1`. -/
def c7w : ℤ := 105553116266497

/-- The destination column exercised in the C7 counterexample:
`2^45 + 2^44 + 2^39 + 2^36`. -/
def c7x : ℤ := 53395033423872

/-- The source image of the C7 counterexample: a `c7w x 1` image, black
everywhere except a white pixel immediately right of column `c7x`. -/
def c7src : Img :=
  ⟨c7w, 1, fun u _ => if u = c7x + 1 then ⟨255, 255, 255, 255⟩ else ⟨0, 0, 0, 255⟩⟩

example : (ResizeImage c7src c7w 1).rgbaAt c7x 0 = ⟨1, 1, 1, 255⟩ := by
  with_unfolding_all decide

/-! ## Shape masks (puzzle.go)

The four procedural inside/outside predicates, evaluated in binary64
exactly as in the source.  `math.Sqrt 3` is `flSqrtNat 3`;
`math.Atan2` is the parameter `atan2F` (applied as `atan2F dy dx`,
matching `math.Atan2(dy, dx)`). -/

/-- puzzle.go `PuzzleType` (Triangle, Hexagon, Trapezoid, Star). -/
inductive PuzzleType where
  | triangle
  | hexagon
  | trapezoid
  | star
deriving DecidableEq, Repr

/-- puzzle.go `isInsideTriangle`: sharp-apex isosceles triangle with
side and bottom margins of 8 pixels and no top margin. -/
def isInsideTriangle (x y : ℤ) : Bool :=
  let centerX : ℤ := 70 / 2
  if x < 8 ∨ 70 - 8 ≤ x then false
  else if 70 - 8 ≤ y then false
  else
    let height : ℚ := 62
    let relativeY := fl (fl (y : ℚ) / height)
    let topWidth : ℚ := 0
    let bottomWidth : ℚ := 54
    let currentWidth := fl (topWidth + fl (fl (bottomWidth - topWidth) * relativeY))
    let dx : ℚ := ((x - centerX : ℤ) : ℚ)
    decide (|dx| ≤ fl (currentWidth / 2))

/-- puzzle.go `isInsideHexagon` with the value of `math.Sqrt(3)`
abstracted, so that margin checks can substitute the literal value. -/
def isInsideHexagonAux (s3 : ℚ) (x y : ℤ) : Bool :=
  let radius : ℚ := 25
  let px : ℚ := ((x - 35 : ℤ) : ℚ)
  let py : ℚ := ((y - 35 : ℤ) : ℚ)
  let vy := fl (fl (radius * s3) / 2)
  let vertices : List (ℚ × ℚ) :=
    [(radius, 0), (fl (radius / 2), vy), (-fl (radius / 2), vy), (-radius, 0),
      (-fl (radius / 2), -vy), (fl (radius / 2), -vy)]
  List.all (List.range 6) fun i =>
    let vi := vertices.getD i (0, 0)
    let vj := vertices.getD ((i + 1) % 6) (0, 0)
    let edgeX := fl (vj.1 - vi.1)
    let edgeY := fl (vj.2 - vi.2)
    let pointX := fl (px - vi.1)
    let pointY := fl (py - vi.2)
    let cross := fl (fl (edgeX * pointY) - fl (edgeY * pointX))
    decide (0 ≤ cross)

/-- puzzle.go `isInsideHexagon`: flat-topped regular hexagon via six
cross-product half-plane tests. -/
def isInsideHexagon (x y : ℤ) : Bool :=
  isInsideHexagonAux (flSqrtNat 3) x y

/-- puzzle.go `isInsideTrapezoid`: centred isosceles trapezoid,
narrow top, wide bottom. -/
def isInsideTrapezoid (x y : ℤ) : Bool :=
  let dx : ℚ := ((x - 35 : ℤ) : ℚ)
  let dy : ℚ := ((y - 35 : ℤ) : ℚ)
  let height : ℚ := 50
  let topWidth : ℚ := 30
  let bottomWidth : ℚ := 50
  if decide (fl (height / 2) < |dy|) then false
  else
    let normalizedY := fl (fl (dy + fl (height / 2)) / height)
    let currentWidth := fl (topWidth + fl (fl (bottomWidth - topWidth) * normalizedY))
    decide (|dx| ≤ fl (currentWidth / 2))

/-- puzzle.go `isInsideStar`: five-pointed star via polar coordinates;
`atan2F` stands for `math.Atan2`. -/
def isInsideStar (atan2F : ℚ → ℚ → ℚ) (x y : ℤ) : Bool :=
  let outerRadius : ℚ := 27
  let innerRadius := fl (outerRadius * c04)
  let dx : ℚ := ((x - 35 : ℤ) : ℚ)
  let dy : ℚ := ((y - 35 : ℤ) : ℚ)
  let dist := flSqrtNat ((x - 35) ^ 2 + (y - 35) ^ 2).toNat
  let angle0 := atan2F dy dx
  let angle := if angle0 < 0 then fl (angle0 + cTwoPi) else angle0
  let segmentAngle := cTwoPiFifth
  let halfAngle := cPiFifth
  let na0 := fl (angle + cPiHalf)
  let na1 := if na0 < 0 then fl (na0 + cTwoPi) else na0
  let na := if cTwoPi ≤ na1 then fl (na1 - cTwoPi) else na1
  let segmentIndex := goInt (fl (na / segmentAngle))
  let angleInSegment := fl (na - fl (fl ((segmentIndex : ℚ)) * segmentAngle))
  let centerOffset := |fl (angleInSegment - halfAngle)|
  let maxDist := fl (innerRadius + fl (fl (outerRadius - innerRadius) * fl (1 - fl (centerOffset / halfAngle))))
  decide (dist ≤ maxDist)

/-- puzzle.go `isInsidePuzzle`: dispatch on the shape type (the default
branch also evaluates the triangle). -/
def isInsidePuzzle (atan2F : ℚ → ℚ → ℚ) (x y : ℤ) (t : PuzzleType) : Bool :=
  match t with
  | .triangle => isInsideTriangle x y
  | .hexagon => isInsideHexagon x y
  | .trapezoid => isInsideTrapezoid x y
  | .star => isInsideStar atan2F x y

/-- The procedural branch of puzzle.go `GeneratePuzzleMask` (the branch
taken when the pre-rendered mask file is absent, as the claims about
procedural masks require): alpha 255 inside the shape, 0 outside. -/
def GeneratePuzzleMaskProcedural (atan2F : ℚ → ℚ → ℚ) (t : PuzzleType) : AlphaMask :=
  ⟨fun x y => if isInsidePuzzle atan2F x y t then 255 else 0⟩

example : isInsideTriangle 35 0 = true := by with_unfolding_all decide
example : isInsideTriangle 35 30 = true := by with_unfolding_all decide
example : isInsideTriangle 35 62 = false := by with_unfolding_all decide
example : isInsideTrapezoid 35 35 = true := by with_unfolding_all decide
example : isInsideTrapezoid 0 35 = false := by with_unfolding_all decide
example : (flSqrtNat 3).num = 3900231685776981 ∧ (flSqrtNat 3).den = 2 ^ 51 := by
  with_unfolding_all decide

/-! ## The hole compositor (service.go `CreatePuzzleHoleWithMask`,
puzzle.go `addHoleBorder`, `isHoleEdge`, `applyGaussianBlurToHole`)

Each loop writes every target pixel at most once and reads only pixels
it does not overwrite (the wash reads only the pixel being written; the
border pass reads only the mask; each blur iteration reads the snapshot
`blurred` taken at the start of the iteration), so all three passes are
translated pointwise.  In the blur, every partial sum is an integer at
most `16 * 255 = 4080 < 2^53`, so the float64 accumulation
`sum += float64(c.R) * weight` is exact and `uint8(sum / 16.0)` equals
integer division by 16; the blur is therefore written in natural
arithmetic. -/

/-- The eight neighbour offsets `(dx, dy)` in the order of the Go
`for dy { for dx }` loops. -/
def neighborOffsets : List (ℤ × ℤ) :=
  [(-1, -1), (0, -1), (1, -1), (-1, 0), (1, 0), (-1, 1), (0, 1), (1, 1)]

/-- The 3x3 Gaussian taps `(dx, dy, weight)` of kernel 1-2-1/2-4-2/1-2-1. -/
def kernelTaps : List (ℤ × ℤ × ℕ) :=
  [(-1, -1, 1), (0, -1, 2), (1, -1, 1), (-1, 0, 2), (0, 0, 4), (1, 0, 2),
    (-1, 1, 1), (0, 1, 2), (1, 1, 1)]

/-- puzzle.go `isHoleEdge`: an 8-connected neighbour is out of the
70x70 frame or has mask alpha 0. -/
def isHoleEdge (x y : ℤ) (mask : AlphaMask) : Bool :=
  neighborOffsets.any fun d =>
    let nx := x + d.1
    let ny := y + d.2
    decide (nx < 0 ∨ 70 ≤ nx ∨ ny < 0 ∨ 70 ≤ ny) || decide (mask.alphaAt nx ny = 0)

/-- The white-wash of one pixel in service.go
`CreatePuzzleHoleWithMask`:
`R = uint8(float64(c.R)*0.5 + 255*0.5)`,
`G = uint8(float64(c.G)*0.6 + 255*0.4)`,
`B = uint8(float64(c.B)*0.6 + 255*0.4)`, alpha forced to 255.
(`255*0.5` and `255*0.4` are Go untyped-constant products, equal to the
exact values 127.5 and 102.) -/
def washPix (c : Pix) : Pix :=
  ⟨u8 (fl (fl ((c.r : ℚ) * (1 / 2)) + 255 / 2)),
    u8 (fl (fl ((c.g : ℚ) * c06) + 102)),
    u8 (fl (fl ((c.b : ℚ) * c06) + 102)), 255⟩

/-- The wash loop of `CreatePuzzleHoleWithMask`: every in-canvas pixel
of the placement window whose mask alpha is positive is washed. -/
def washHole (res : Img) (mask : AlphaMask) (x y : ℤ) : Img :=
  ⟨res.w, res.h, fun tx ty =>
    let px := tx - x
    let py := ty - y
    if 0 ≤ px ∧ px < 70 ∧ 0 ≤ py ∧ py < 70 ∧
        0 ≤ tx ∧ tx < res.w ∧ 0 ≤ ty ∧ ty < res.h ∧ 0 < mask.alphaAt px py then
      washPix (res.rgbaAt tx ty)
    else res.pix tx ty⟩

/-- puzzle.go `addHoleBorder`: overwrites every in-canvas masked edge
pixel with `borderColor = color.RGBA{0, 0, 0, 0}`. -/
def addHoleBorder (res : Img) (mask : AlphaMask) (x y : ℤ) : Img :=
  ⟨res.w, res.h, fun tx ty =>
    let px := tx - x
    let py := ty - y
    if 0 ≤ px ∧ px < 70 ∧ 0 ≤ py ∧ py < 70 ∧ 0 < mask.alphaAt px py ∧
        isHoleEdge px py mask = true ∧
        0 ≤ tx ∧ tx < res.w ∧ 0 ≤ ty ∧ ty < res.h then
      ⟨0, 0, 0, 0⟩
    else res.pix tx ty⟩

/-- Clamp a coordinate into `[0, bound)` as the blur boundary handling
does. -/
def clampCoord (n bound : ℤ) : ℤ :=
  if n < 0 then 0 else if bound ≤ n then bound - 1 else n

/-- One iteration of puzzle.go `applyGaussianBlurToHole`: every
in-canvas masked pixel of the window is replaced by the 3x3 kernel
average (divisor 16) of its canvas-clamped neighbourhood, read from the
snapshot taken at the start of the iteration; alpha is forced to 255.
No mask test is applied to the taps. -/
def applyGaussianBlurToHoleOnce (res : Img) (mask : AlphaMask) (x y : ℤ) : Img :=
  ⟨res.w, res.h, fun tx ty =>
    let px := tx - x
    let py := ty - y
    if 0 ≤ px ∧ px < 70 ∧ 0 ≤ py ∧ py < 70 ∧ 0 < mask.alphaAt px py ∧
        0 ≤ tx ∧ tx < res.w ∧ 0 ≤ ty ∧ ty < res.h then
      let tap := fun (f : Pix → ℕ) =>
        kernelTaps.foldl
          (fun acc t =>
            acc + t.2.2 * f (res.rgbaAt (clampCoord (tx + t.1) res.w) (clampCoord (ty + t.2.1) res.h)))
          0
      ⟨tap Pix.r / 16, tap Pix.g / 16, tap Pix.b / 16, 255⟩
    else res.pix tx ty⟩

/-- puzzle.go `applyGaussianBlurToHole`: two blur iterations. -/
def applyGaussianBlurToHole (res : Img) (mask : AlphaMask) (x y : ℤ) : Img :=
  applyGaussianBlurToHoleOnce (applyGaussianBlurToHoleOnce res mask x y) mask x y

/-- service.go `CreatePuzzleHoleWithMask`: copy the canvas, wash the
masked window toward white, stamp the (transparent) border, blur the
masked window twice. -/
def CreatePuzzleHoleWithMask (bg : Img) (x y : ℤ) (mask : AlphaMask) : Img :=
  let result : Img := ⟨bg.w, bg.h, fun tx ty => bg.rgbaAt tx ty⟩
  applyGaussianBlurToHole (addHoleBorder (washHole result mask x y) mask x y) mask x y

/-- The comparison object of claim C5: `CreatePuzzleHoleWithMask` with
the `addHoleBorder` pass omitted and everything else unchanged. -/
def CreatePuzzleHoleWithMaskSansBorder (bg : Img) (x y : ℤ) (mask : AlphaMask) : Img :=
  let result : Img := ⟨bg.w, bg.h, fun tx ty => bg.rgbaAt tx ty⟩
  applyGaussianBlurToHole (washHole result mask x y) mask x y

/-- A 10x10 all-black opaque canvas (counterexample input). -/
def blackCanvas10 : Img := ⟨10, 10, fun _ _ => ⟨0, 0, 0, 255⟩⟩

/-- A mask whose footprint is the single pixel (1,1) (counterexample
input). -/
def oneDotMask : AlphaMask := ⟨fun u v => if u = 1 ∧ v = 1 then 255 else 0⟩

example : washPix ⟨0, 0, 0, 255⟩ = ⟨127, 102, 102, 255⟩ := by with_unfolding_all decide
example : (CreatePuzzleHoleWithMask blackCanvas10 0 0 oneDotMask).rgbaAt 1 1 = ⟨0, 0, 0, 255⟩ := by
  with_unfolding_all decide
example :
    (CreatePuzzleHoleWithMaskSansBorder blackCanvas10 0 0 oneDotMask).rgbaAt 1 1 = ⟨7, 6, 6, 255⟩ := by
  with_unfolding_all decide

/-! ## The piece extractor (service.go `ExtractPuzzlePieceWithMask`,
puzzle.go `addSimpleBorder`, `antiAliasEdges`, `smoothDiagonalEdges`,
`globalSmooth`, `add3DEffect`, `applyGaussianBlur`)

`antiAliasEdges` and `smoothDiagonalEdges` read neighbours of pixels
they may already have overwritten, so they are translated as left folds
over the positions in Go loop order (outer `py`, inner `px`).  Both
divide `uint32` sums by `uint32(totalWeight)`; when the truncated
weight is zero Go panics with a division by zero, which the embedding
models as `none`.  `math.Pow(.., 1.5)` is the parameter `powF`.
`uint32` additions are reduced modulo `2^32` like Go; the conversions
`uint32(f)` for a `float64` `f` are truncation (for the values produced
by Go's `math.Pow` all of them are nonnegative and in range; the
reduction makes the definition total for every `powF`). -/

/-- The offsets `(dx, dy)` of a `(2k+1) x (2k+1)` square neighbourhood
without its centre, in Go loop order (outer `dy`, inner `dx`). -/
def squareOffsets (k : ℕ) : List (ℤ × ℤ) :=
  ((List.range (2 * k + 1)).flatMap fun j =>
    (List.range (2 * k + 1)).map fun i => ((i : ℤ) - k, (j : ℤ) - k)).filter
    fun d => !(d.1 = 0 ∧ d.2 = 0 : Bool)

/-- The raster positions `(px, py)` with both coordinates in
`[lo, lo + n)`, outer `py`, inner `px`. -/
def rasterPositions (lo : ℤ) (n : ℕ) : List (ℤ × ℤ) :=
  (List.range n).flatMap fun j => (List.range n).map fun i => (lo + i, lo + j)

/-- puzzle.go `countTransparentNeighbors`: in-frame 8-neighbours with
mask alpha 0. -/
def countTransparentNeighbors (x y : ℤ) (mask : AlphaMask) : ℕ :=
  neighborOffsets.countP fun d =>
    let nx := x + d.1
    let ny := y + d.2
    decide (0 ≤ nx ∧ nx < 70 ∧ 0 ≤ ny ∧ ny < 70) && decide (mask.alphaAt nx ny = 0)

/-- puzzle.go `isEdgeSimple` (same 8-neighbour test as `isHoleEdge`). -/
def isEdgeSimple (x y : ℤ) (mask : AlphaMask) : Bool :=
  neighborOffsets.any fun d =>
    let nx := x + d.1
    let ny := y + d.2
    decide (nx < 0 ∨ 70 ≤ nx ∨ ny < 0 ∨ 70 ≤ ny) || decide (mask.alphaAt nx ny = 0)

/-- Is a pixel the pure white used by the border (R = G = B = 255)? -/
def isWhitePix (c : Pix) : Bool :=
  decide (c.r = 255) && decide (c.g = 255) && decide (c.b = 255)

/-- One position step of the first pass of puzzle.go `antiAliasEdges`:
distance-weighted 7x7 average of non-white in-mask neighbours, blended
at ratio `0.5 + t/9*0.4`.  `none` models the division-by-zero panic
when `uint32(totalWeight) = 0` despite `totalWeight > 0`. -/
def antiAliasStep (powF : ℚ → ℚ) (mask : AlphaMask) (img : Img) (pos : ℤ × ℤ) : Option Img :=
  let px := pos.1
  let py := pos.2
  if 0 < mask.alphaAt px py then
    let t := countTransparentNeighbors px py mask
    if 0 < t then
      let cur := img.rgbaAt px py
      if isWhitePix cur then some img
      else
        let acc :=
          (squareOffsets 3).foldl
            (fun (acc : ℕ × ℕ × ℕ × ℚ) d =>
              let nx := px + d.1
              let ny := py + d.2
              if 0 ≤ nx ∧ nx < 70 ∧ 0 ≤ ny ∧ ny < 70 ∧ 0 < mask.alphaAt nx ny then
                let c := img.rgbaAt nx ny
                if isWhitePix c then acc
                else
                  let dist := flSqrtNat (d.1 ^ 2 + d.2 ^ 2).toNat
                  let weight := fl (1 / powF (fl (dist + 1)))
                  ((acc.1 + u32 (fl ((c.r : ℚ) * weight))) % 2 ^ 32,
                    (acc.2.1 + u32 (fl ((c.g : ℚ) * weight))) % 2 ^ 32,
                    (acc.2.2.1 + u32 (fl ((c.b : ℚ) * weight))) % 2 ^ 32,
                    fl (acc.2.2.2 + weight))
              else acc)
            (0, 0, 0, 0)
        let totalWeight := acc.2.2.2
        if 0 < totalWeight then
          let dvs := u32 totalWeight
          if dvs = 0 then none
          else
            let avgR := acc.1 / dvs
            let avgG := acc.2.1 / dvs
            let avgB := acc.2.2.1 / dvs
            let mixRatio := fl (1 / 2 + fl (fl ((t : ℚ) / 9) * c04))
            some (img.setRGBA px py
              ⟨u8 (fl (fl ((cur.r : ℚ) * fl (1 - mixRatio)) + fl ((avgR : ℚ) * mixRatio))),
                u8 (fl (fl ((cur.g : ℚ) * fl (1 - mixRatio)) + fl ((avgG : ℚ) * mixRatio))),
                u8 (fl (fl ((cur.b : ℚ) * fl (1 - mixRatio)) + fl ((avgB : ℚ) * mixRatio))), 255⟩)
        else some img
    else some img
  else some img

/-- One position step of puzzle.go `smoothDiagonalEdges`: pixels with
transparent neighbours both horizontally and vertically get a 60% blend
toward an inverse-distance 5x5 average. -/
def smoothDiagonalStep (mask : AlphaMask) (img : Img) (pos : ℤ × ℤ) : Option Img :=
  let px := pos.1
  let py := pos.2
  if 0 < mask.alphaAt px py then
    let cur := img.rgbaAt px py
    if isWhitePix cur then some img
    else
      let hasH := mask.alphaAt (px - 1) py = 0 ∨ mask.alphaAt (px + 1) py = 0
      let hasV := mask.alphaAt px (py - 1) = 0 ∨ mask.alphaAt px (py + 1) = 0
      if hasH ∧ hasV then
        let acc :=
          (squareOffsets 2).foldl
            (fun (acc : ℕ × ℕ × ℕ × ℚ) d =>
              let nx := px + d.1
              let ny := py + d.2
              if 0 ≤ nx ∧ nx < 70 ∧ 0 ≤ ny ∧ ny < 70 ∧ 0 < mask.alphaAt nx ny then
                let c := img.rgbaAt nx ny
                if isWhitePix c then acc
                else
                  let dist := flSqrtNat (d.1 ^ 2 + d.2 ^ 2).toNat
                  let weight := fl (1 / fl (dist + 1))
                  ((acc.1 + u32 (fl ((c.r : ℚ) * weight))) % 2 ^ 32,
                    (acc.2.1 + u32 (fl ((c.g : ℚ) * weight))) % 2 ^ 32,
                    (acc.2.2.1 + u32 (fl ((c.b : ℚ) * weight))) % 2 ^ 32,
                    fl (acc.2.2.2 + weight))
              else acc)
            (0, 0, 0, 0)
        let totalWeight := acc.2.2.2
        if 0 < totalWeight then
          let dvs := u32 totalWeight
          if dvs = 0 then none
          else
            let avgR := acc.1 / dvs
            let avgG := acc.2.1 / dvs
            let avgB := acc.2.2.1 / dvs
            some (img.setRGBA px py
              ⟨u8 (fl (fl ((cur.r : ℚ) * c04) + fl ((avgR : ℚ) * c06))),
                u8 (fl (fl ((cur.g : ℚ) * c04) + fl ((avgG : ℚ) * c06))),
                u8 (fl (fl ((cur.b : ℚ) * c04) + fl ((avgB : ℚ) * c06))), 255⟩)
        else some img
      else some img
  else some img

/-- One position step of puzzle.go `globalSmooth`: 80/20 blend toward
the plain average of the 3x3 in-mask non-white neighbourhood (centre
included, as in the source, which does not skip `dx = dy = 0`). -/
def globalSmoothStep (mask : AlphaMask) (img : Img) (pos : ℤ × ℤ) : Img :=
  let px := pos.1
  let py := pos.2
  if 0 < mask.alphaAt px py then
    let cur := img.rgbaAt px py
    if isWhitePix cur then img
    else
      let acc :=
        ([(-1, -1), (0, -1), (1, -1), (-1, 0), (0, 0), (1, 0), (-1, 1), (0, 1), (1, 1)] :
            List (ℤ × ℤ)).foldl
          (fun (acc : ℕ × ℕ × ℕ × ℕ) d =>
            let nx := px + d.1
            let ny := py + d.2
            if 0 < mask.alphaAt nx ny then
              let c := img.rgbaAt nx ny
              if isWhitePix c then acc
              else
                ((acc.1 + c.r) % 2 ^ 32, (acc.2.1 + c.g) % 2 ^ 32,
                  (acc.2.2.1 + c.b) % 2 ^ 32, acc.2.2.2 + 1)
            else acc)
          (0, 0, 0, 0)
      let count := acc.2.2.2
      if 0 < count then
        let avgR := acc.1 / count
        let avgG := acc.2.1 / count
        let avgB := acc.2.2.1 / count
        img.setRGBA px py
          ⟨u8 (fl (fl ((cur.r : ℚ) * c08) + fl ((avgR : ℚ) * c02))),
            u8 (fl (fl ((cur.g : ℚ) * c08) + fl ((avgG : ℚ) * c02))),
            u8 (fl (fl ((cur.b : ℚ) * c08) + fl ((avgB : ℚ) * c02))), 255⟩
      else img
  else img

/-- puzzle.go `antiAliasEdges`: the strong 7x7 pass over all positions,
then `smoothDiagonalEdges`, then `globalSmooth`. -/
def antiAliasEdges (powF : ℚ → ℚ) (piece : Img) (mask : AlphaMask) : Option Img := do
  let p1 ← (rasterPositions 0 70).foldlM (antiAliasStep powF mask) piece
  let p2 ← (rasterPositions 1 68).foldlM (smoothDiagonalStep mask) p1
  pure ((rasterPositions 1 68).foldl (globalSmoothStep mask) p2)

/-- The plain white-border pass of puzzle.go `addSimpleBorder` (the
part before the anti-alias call): paint in-mask edge pixels solid
white. -/
def addSimpleBorderBase (piece : Img) (mask : AlphaMask) : Img :=
  ⟨piece.w, piece.h, fun px py =>
    if 0 ≤ px ∧ px < 70 ∧ 0 ≤ py ∧ py < 70 ∧ 0 < mask.alphaAt px py ∧
        isEdgeSimple px py mask = true ∧ px < piece.w ∧ py < piece.h then
      ⟨255, 255, 255, 255⟩
    else piece.pix px py⟩

/-- puzzle.go `addSimpleBorder`: paint in-mask edge pixels solid white,
then anti-alias. -/
def addSimpleBorder (powF : ℚ → ℚ) (piece : Img) (mask : AlphaMask) : Option Img :=
  antiAliasEdges powF (addSimpleBorderBase piece mask) mask

/-- puzzle.go `clamp255`. -/
def clamp255 (v : ℤ) : ℕ := if v < 0 then 0 else if 255 < v then 255 else v.toNat

/-- puzzle.go `add3DEffect`: brighten edge pixels by
`1 + (0.05 + t/9*0.15)`, clamped per channel (reads only the pixel it
writes, hence pointwise). -/
def add3DEffect (piece : Img) (mask : AlphaMask) : Img :=
  ⟨piece.w, piece.h, fun px py =>
    let t := countTransparentNeighbors px py mask
    let cur := piece.rgbaAt px py
    if 0 ≤ px ∧ px < 70 ∧ 0 ≤ py ∧ py < 70 ∧ 0 < mask.alphaAt px py ∧ 0 < t ∧
        isWhitePix cur = false ∧ px < piece.w ∧ py < piece.h then
      let ratio := fl (c005 + fl (fl ((t : ℚ) / 9) * c015))
      ⟨clamp255 (goInt (fl ((cur.r : ℚ) * fl (1 + ratio)))),
        clamp255 (goInt (fl ((cur.g : ℚ) * fl (1 + ratio)))),
        clamp255 (goInt (fl ((cur.b : ℚ) * fl (1 + ratio)))), 255⟩
    else piece.pix px py⟩

/-- Clamp into the 70x70 frame as the piece blur's boundary handling
does. -/
def clamp70 (n : ℤ) : ℤ := clampCoord n 70

/-- puzzle.go `applyGaussianBlurOnce`: writes a fresh image `blurred`
(all pixels written: masked pixels get the kernel sum over frame-
clamped taps that pass the mask test, divided by the full kernel sum
16 and alpha 255; unmasked pixels get the zero pixel) and copies it
back over `piece`.  Every partial sum is an integer at most
`4080 < 2^53`, so float64 accumulation is exact and natural arithmetic
models it. -/
def applyGaussianBlurOnce (piece : Img) (mask : AlphaMask) : Img :=
  ⟨piece.w, piece.h, fun tx ty =>
    if 0 ≤ tx ∧ tx < 70 ∧ 0 ≤ ty ∧ ty < 70 ∧ tx < piece.w ∧ ty < piece.h then
      if 0 < mask.alphaAt tx ty then
        let tap := fun (f : Pix → ℕ) =>
          kernelTaps.foldl
            (fun acc t =>
              if 0 < mask.alphaAt (clamp70 (tx + t.1)) (clamp70 (ty + t.2.1)) then
                acc + t.2.2 * f (piece.rgbaAt (clamp70 (tx + t.1)) (clamp70 (ty + t.2.1)))
              else acc)
            0
        ⟨tap Pix.r / 16, tap Pix.g / 16, tap Pix.b / 16, 255⟩
      else ⟨0, 0, 0, 0⟩
    else Pix.zero⟩

/-- puzzle.go `applyGaussianBlur`: two iterations of
`applyGaussianBlurOnce`. -/
def applyGaussianBlur (piece : Img) (mask : AlphaMask) : Img :=
  applyGaussianBlurOnce (applyGaussianBlurOnce piece mask) mask

/-- The copy loop of service.go `ExtractPuzzlePieceWithMask`:
transparent 70x70 canvas with a verbatim copy of the masked in-bounds
canvas pixels. -/
def pieceCopy (bg : Img) (x y : ℤ) (mask : AlphaMask) : Img :=
  ⟨70, 70, fun px py =>
    if 0 ≤ px ∧ px < 70 ∧ 0 ≤ py ∧ py < 70 ∧ 0 < mask.alphaAt px py ∧
        0 ≤ x + px ∧ x + px < bg.w ∧ 0 ≤ y + py ∧ y + py < bg.h then
      bg.rgbaAt (x + px) (y + py)
    else ⟨0, 0, 0, 0⟩⟩

/-- service.go `ExtractPuzzlePieceWithMask`: the copy, then border +
anti-alias chain, 3D highlight, and the final two-pass blur.  `none`
models the division-by-zero panic inside the anti-alias passes. -/
def ExtractPuzzlePieceWithMask (powF : ℚ → ℚ) (bg : Img) (x y : ℤ) (mask : AlphaMask) :
    Option Img :=
  (addSimpleBorder powF (pieceCopy bg x y mask) mask).map fun p1 =>
    applyGaussianBlur (add3DEffect p1 mask) mask

/-! ## Closed forms for the final blur (claim C4) -/

/-- The sum over the nine kernel taps of `weight * channel` at the
frame-clamped tap position, counting only taps whose clamped position
has positive mask alpha (the others contribute zero). -/
def validTapSum (piece : Img) (mask : AlphaMask) (tx ty : ℤ) (f : Pix → ℕ) : ℕ :=
  (kernelTaps.map fun t =>
    let nx := clamp70 (tx + t.1)
    let ny := clamp70 (ty + t.2.1)
    if 0 < mask.alphaAt nx ny then t.2.2 * f (piece.rgbaAt nx ny) else 0).sum

/-- The kernel weight actually contributed by the valid taps (the
divisor that re-normalisation would use). -/
def validWeightSum (mask : AlphaMask) (tx ty : ℤ) : ℕ :=
  (kernelTaps.map fun t =>
    let nx := clamp70 (tx + t.1)
    let ny := clamp70 (ty + t.2.1)
    if 0 < mask.alphaAt nx ny then t.2.2 else 0).sum

/-- Modelled from the spec (section 4.4 step 7): the blur pass as the
specification words it, with out-of-frame samples excluded (not
clamped), out-of-mask samples excluded, and the weighted sum divided
by the sum of the weights of the valid contributing taps instead of
the full kernel sum 16.  Defined only to be compared against the
code's `applyGaussianBlurOnce`. -/
def applyGaussianBlurOnceRenormSpec (piece : Img) (mask : AlphaMask) : Img :=
  ⟨piece.w, piece.h, fun tx ty =>
    if 0 ≤ tx ∧ tx < 70 ∧ 0 ≤ ty ∧ ty < 70 ∧ tx < piece.w ∧ ty < piece.h then
      if 0 < mask.alphaAt tx ty then
        let valid := fun (t : ℤ × ℤ × ℕ) =>
          0 ≤ tx + t.1 ∧ tx + t.1 < 70 ∧ 0 ≤ ty + t.2.1 ∧ ty + t.2.1 < 70 ∧
            0 < mask.alphaAt (tx + t.1) (ty + t.2.1)
        let tap := fun (f : Pix → ℕ) =>
          (kernelTaps.map fun t =>
            if valid t then t.2.2 * f (piece.rgbaAt (tx + t.1) (ty + t.2.1)) else 0).sum
        let dvs := (kernelTaps.map fun t => if valid t then t.2.2 else 0).sum
        ⟨tap Pix.r / dvs, tap Pix.g / dvs, tap Pix.b / dvs, 255⟩
      else ⟨0, 0, 0, 0⟩
    else Pix.zero⟩

/-- The piece input of the C4 counterexample: gray 160 at (1,1),
transparent elsewhere. -/
def c4piece : Img := ⟨70, 70, fun u v => if u = 1 ∧ v = 1 then ⟨160, 160, 160, 255⟩ else ⟨0, 0, 0, 0⟩⟩

example : (applyGaussianBlurOnce c4piece oneDotMask).rgbaAt 1 1 = ⟨40, 40, 40, 255⟩ := by
  with_unfolding_all decide
example : (applyGaussianBlurOnceRenormSpec c4piece oneDotMask).rgbaAt 1 1 = ⟨160, 160, 160, 255⟩ := by
  with_unfolding_all decide

/-! ## The service (service.go) -/

/-- slider.go `SliderCaptcha`. -/
structure SliderCaptcha where
  id : String
  background : String
  slider : String
  positionY : ℤ
deriving DecidableEq, Repr

/-- `PuzzleType(rand.Intn(4))`. -/
def shapeOfNat : ℕ → PuzzleType
  | 0 => .triangle
  | 1 => .hexagon
  | 2 => .trapezoid
  | _ => .star

/-- service.go `GenerateCaptchaImagesWithMask`: resize to 350x200,
rescale the placement, build hole and piece, encode both.  The PNG +
base64 encoding (`ImageToBase64`) is outside the pixel pipeline and is
the parameter `encode`; `none` propagates the anti-alias panic. -/
def GenerateCaptchaImagesWithMask (powF : ℚ → ℚ) (encode : Img → Except String String)
    (bgImage : Img) (x y : ℤ) (mask : AlphaMask) : Option (Except String (String × String)) :=
  let resized := ResizeImage bgImage 350 200
  let scaleX := fl ((350 : ℚ) / fl (bgImage.w : ℚ))
  let scaleY := fl ((200 : ℚ) / fl (bgImage.h : ℚ))
  let scaledX := goInt (fl (fl (x : ℚ) * scaleX))
  let scaledY := goInt (fl (fl (y : ℚ) * scaleY))
  let holeImage := CreatePuzzleHoleWithMask resized scaledX scaledY mask
  match ExtractPuzzlePieceWithMask powF resized scaledX scaledY mask with
  | none => none
  | some pieceImage =>
    some
      (match encode holeImage with
      | .error e => .error ("failed to encode background: " ++ e)
      | .ok bgB64 =>
        match encode pieceImage with
        | .error e => .error ("failed to encode slider: " ++ e)
        | .ok sliderB64 => .ok (bgB64, sliderB64))

/-- service.go `CaptchaService` (the mutex is irrelevant to the
sequential semantics; `puzzleMasks` is the map). -/
structure CaptchaService where
  backgroundImages : List Img
  puzzleMasks : PuzzleType → Option AlphaMask
  backgroundURLs : List String
  initialized : Bool

/-- service.go `NewCaptchaService`. -/
def NewCaptchaService : CaptchaService := ⟨[], fun _ => none, [], false⟩

/-- service.go `GetRandomBackground`: `nil` (`none`) when no images are
cached, otherwise a random cached image (`r` models the draw). -/
def CaptchaService.GetRandomBackground (s : CaptchaService) (r : ℕ) : Option Img :=
  if s.backgroundImages.length = 0 then none
  else s.backgroundImages.get? (r % s.backgroundImages.length)

/-- service.go `GetPuzzleMask`: map lookup, `nil` when absent. -/
def CaptchaService.GetPuzzleMask (s : CaptchaService) (t : PuzzleType) : Option AlphaMask :=
  s.puzzleMasks t

/-- service.go `(*CaptchaService).Generate`, with the `rand.Intn`
draws, the uuid, the clock and the session store passed explicitly and
returned alongside the result; `none` models a panic
(`rand.Intn(0)` in the placement block, or the anti-alias division).
The first step is the `initialized` guard, which returns the typed
error without touching anything else. -/
def CaptchaService.Generate (s : CaptchaService) (powF : ℚ → ℚ)
    (encode : Img → Except String String) (rBg rX rY rShape : ℕ) (uuid : String) (now : ℤ)
    (store : MemoryStore) : Option (Except String SliderCaptcha × MemoryStore) :=
  if s.initialized = false then
    some (.error "captcha service not initialized, call Init() first", store)
  else
    match s.GetRandomBackground rBg with
    | none => some (.error "no background images available", store)
    | some bgImage =>
      match choosePlacementX bgImage.w rX, choosePlacementY bgImage.h rY with
      | some positionX, some positionY =>
        let shapeType := shapeOfNat (rShape % 4)
        match s.GetPuzzleMask shapeType with
        | none => some (.error "mask not found for shape type", store)
        | some mask =>
          match GenerateCaptchaImagesWithMask powF encode bgImage positionX positionY mask with
          | none => none
          | some (.error e) => some (.error ("failed to generate captcha images: " ++ e), store)
          | some (.ok pair) =>
            let scaleX := fl ((350 : ℚ) / fl (bgImage.w : ℚ))
            let scaleY := fl ((200 : ℚ) / fl (bgImage.h : ℚ))
            let scaledPositionX := goInt (fl (fl (positionX : ℚ) * scaleX))
            let scaledPositionY := goInt (fl (fl (positionY : ℚ) * scaleY))
            let store2 := store.Set uuid ⟨uuid, scaledPositionX, scaledPositionY, 0⟩ now
            some (.ok ⟨uuid, pair.1, pair.2, scaledPositionY⟩, store2)
      | _, _ => none

/-! ## Specification lemmas for the float model -/

theorem natLog2F_spec (fuel : ℕ) : ∀ n, 1 ≤ n → n ≤ fuel →
    2 ^ natLog2F fuel n ≤ n ∧ n < 2 ^ (natLog2F fuel n + 1) := by
  induction fuel with
  | zero => intro n h1 h2; omega
  | succ fuel ih =>
    intro n h1 h2
    by_cases hn : n ≤ 1
    · have : n = 1 := by omega
      subst this
      simp [natLog2F]
    · have h2' : n / 2 ≤ fuel := by omega
      have h1' : 1 ≤ n / 2 := by omega
      obtain ⟨lo, hi⟩ := ih (n / 2) h1' h2'
      have e1 : natLog2F (fuel + 1) n = natLog2F fuel (n / 2) + 1 := by
        simp [natLog2F, hn]
      rw [e1]
      constructor
      · calc 2 ^ (natLog2F fuel (n / 2) + 1) = 2 * 2 ^ natLog2F fuel (n / 2) := by ring
        _ ≤ 2 * (n / 2) := by omega
        _ ≤ n := by omega
      · have : n / 2 + 1 ≤ 2 ^ (natLog2F fuel (n / 2) + 1) := hi
        calc n < 2 * (n / 2) + 2 := by omega
        _ ≤ 2 * 2 ^ (natLog2F fuel (n / 2) + 1) := by omega
        _ = 2 ^ (natLog2F fuel (n / 2) + 1 + 1) := by ring
  
theorem nlog2_spec (n : ℕ) (h : 1 ≤ n) : 2 ^ nlog2 n ≤ n ∧ n < 2 ^ (nlog2 n + 1) :=
  natLog2F_spec n n h le_rfl

theorem zpow2_eq (k : ℤ) : zpow2 k = (2 : ℚ) ^ k := by
  unfold zpow2
  split
  · next h =>
    push_cast
    rw [← zpow_natCast (2 : ℚ) k.toNat, Int.toNat_of_nonneg h]
  · next h =>
    push_cast
    rw [← zpow_natCast (2 : ℚ) (-k).toNat, Int.toNat_of_nonneg (by omega), one_div,
      ← zpow_neg, neg_neg]

theorem qexp_spec (q : ℚ) (hq : 0 < q) :
    (2 : ℚ) ^ qexp q ≤ q ∧ q < 2 ^ (qexp q + 1) := by
  obtain ⟨a, ha⟩ : ∃ a : ℕ, (a : ℤ) = q.num := ⟨q.num.toNat, Int.toNat_of_nonneg (by positivity)⟩
  have ha1 : 1 ≤ a := by
    have := Rat.num_pos.mpr hq
    omega
  set b := q.den with hb
  have hb1 : 1 ≤ b := q.den_pos
  have hq' : q = (a : ℚ) / (b : ℚ) := by
    rw [← Rat.num_div_den q, ← ha]
    push_cast
    rfl
  have hbq : (0 : ℚ) < (b : ℚ) := by positivity
  have hqe : qexp q = if b ≤ a then (nlog2 (a / b) : ℤ)
      else if b ≤ a * 2 ^ nlog2 (b / a) then -(nlog2 (b / a) : ℤ)
      else -(nlog2 (b / a) : ℤ) - 1 := by
    unfold qexp
    rw [← ha]
    simp [Int.toNat_natCast]
  by_cases hab : b ≤ a
  · rw [hqe, if_pos hab]
    obtain ⟨lo, hi⟩ := nlog2_spec (a / b) ((Nat.one_le_div_iff (by omega)).mpr hab)
    constructor
    · rw [hq', zpow_natCast, le_div_iff hbq]
      calc ((2 : ℚ) ^ nlog2 (a / b)) * b ≤ ((a / b : ℕ) : ℚ) * b := by
            have : ((2 ^ nlog2 (a / b) : ℕ) : ℚ) ≤ ((a / b : ℕ) : ℚ) := by exact_mod_cast lo
            push_cast at this ⊢
            nlinarith
        _ ≤ a := by
            have := Nat.div_mul_le_self a b
            exact_mod_cast this
    · rw [hq', div_lt_iff hbq]
      have step : a < (a / b + 1) * b := by
        have := Nat.div_add_mod a b
        have := Nat.mod_lt a (show 0 < b by omega)
        nlinarith
      have step2 : (a / b + 1) ≤ 2 ^ (nlog2 (a / b) + 1) := hi
      have : (a : ℚ) < ((a / b + 1 : ℕ) : ℚ) * b := by exact_mod_cast step
      calc (a : ℚ) < ((a / b + 1 : ℕ) : ℚ) * b := this
        _ ≤ (2 : ℚ) ^ (nlog2 (a / b) + 1) * b := by
            have : ((a / b + 1 : ℕ) : ℚ) ≤ ((2 ^ (nlog2 (a / b) + 1) : ℕ) : ℚ) := by
              exact_mod_cast step2
            push_cast at this ⊢
            nlinarith
        _ = (2 : ℚ) ^ ((nlog2 (a / b) : ℤ) + 1) * b := by
            rw [← zpow_natCast (2 : ℚ)]
            push_cast
            ring_nf
  · have hab' : a < b := by omega
    obtain ⟨lo, hi⟩ := nlog2_spec (b / a) ((Nat.one_le_div_iff (by omega)).mpr (by omega))
    set j := nlog2 (b / a) with hj
    have haq : (0 : ℚ) < (a : ℚ) := by positivity
    by_cases hc : b ≤ a * 2 ^ j
    · have hc' : a * 2 ^ j ≤ b := by
        have := (Nat.le_div_iff_mul_le (by omega : 0 < a)).mp lo
        nlinarith [this]
      have heq : b = a * 2 ^ j := by omega
      rw [hqe, if_neg hab, if_pos hc]
      constructor
      · rw [hq', le_div_iff hbq]
        have : ((b : ℚ)) = (a : ℚ) * 2 ^ j := by exact_mod_cast heq
        rw [this]
        rw [zpow_neg, zpow_natCast]
        rw [inv_mul_le_iff (by positivity)]
        nlinarith [pow_pos (show (0:ℚ) < 2 by norm_num) j]
      · rw [hq', div_lt_iff hbq]
        have hbeq : ((b : ℚ)) = (a : ℚ) * 2 ^ j := by exact_mod_cast heq
        rw [hbeq]
        have : (2 : ℚ) ^ (-(j : ℤ) + 1) = 2 * (2 ^ j)⁻¹ := by
          rw [zpow_add₀ (by norm_num : (2:ℚ) ≠ 0), zpow_neg, zpow_natCast]
          ring
        rw [this]
        have h2j : (0 : ℚ) < 2 ^ j := by positivity
        have hone : (1 : ℚ) ≤ (a : ℚ) := by exact_mod_cast ha1
        have hrw : (2 : ℚ) * (2 ^ j)⁻¹ * ((a : ℚ) * 2 ^ j) = 2 * a := by
          field_simp
          ring
        rw [hrw]
        nlinarith
    · have hc2 : a * 2 ^ j < b := by omega
      rw [hqe, if_neg hab, if_neg hc]
      have hup : b < a * 2 ^ (j + 1) := by
        have h1 : b / a < 2 ^ (j + 1) := hi
        have h2 := Nat.div_add_mod b a
        have h3 := Nat.mod_lt b (show 0 < a by omega)
        nlinarith
      constructor
      · rw [hq', le_div_iff hbq]
        have hcast : (b : ℚ) < (a : ℚ) * 2 ^ (j + 1) := by exact_mod_cast hup
        have : (2 : ℚ) ^ (-(j : ℤ) - 1) = ((2 : ℚ) ^ (j + 1))⁻¹ := by
          rw [← zpow_natCast (2 : ℚ) (j + 1), ← zpow_neg]
          push_cast
          ring_nf
        rw [this]
        rw [inv_mul_le_iff (by positivity)]
        nlinarith [pow_pos (show (0:ℚ) < 2 by norm_num) (j + 1)]
      · rw [hq', div_lt_iff hbq]
        have hcast : (a : ℚ) * 2 ^ j < (b : ℚ) := by exact_mod_cast hc2
        have : (2 : ℚ) ^ (-(j : ℤ) - 1 + 1) = ((2 : ℚ) ^ j)⁻¹ := by
          rw [← zpow_natCast (2 : ℚ) j, ← zpow_neg]
          ring_nf
        rw [this]
        have h2j : (0 : ℚ) < 2 ^ j := by positivity
        rw [inv_mul_eq_div, lt_div_iff h2j]
        nlinarith

theorem qexp_unique (q : ℚ) (e : ℤ) (h1 : (2 : ℚ) ^ e ≤ q) (h2 : q < 2 ^ (e + 1)) :
    qexp q = e := by
  have hq : 0 < q := lt_of_lt_of_le (by positivity) h1
  obtain ⟨l1, l2⟩ := qexp_spec q hq
  by_contra hne
  rcases lt_or_gt_of_ne hne with hl | hg
  · have hle : (2 : ℚ) ^ (qexp q + 1) ≤ 2 ^ e :=
      zpow_le_zpow_right₀ (by norm_num) (by omega)
    linarith
  · have hle : (2 : ℚ) ^ (e + 1) ≤ 2 ^ qexp q :=
      zpow_le_zpow_right₀ (by norm_num) (by omega)
    linarith

theorem rne_sub_abs (q : ℚ) : |(rne q : ℚ) - q| ≤ 1 / 2 := by
  unfold rne
  have h0 : (⌊q⌋ : ℚ) ≤ q := Int.floor_le q
  have h1 : q < ⌊q⌋ + 1 := Int.lt_floor_add_one q
  split
  · next h => rw [abs_le]; constructor <;> linarith
  · next h =>
    split
    · next h2 => push_cast; rw [abs_le]; constructor <;> linarith
    · next h2 =>
      have : q - ⌊q⌋ = 1 / 2 := by linarith
      split <;> (push_cast; rw [abs_le]; constructor <;> linarith)

theorem rne_intCast (n : ℤ) : rne (n : ℚ) = n := by
  unfold rne
  rw [Int.floor_intCast]
  norm_num

theorem flPos_sub_abs (q : ℚ) (hq : 0 < q) : |flPos q - q| ≤ q / 2 ^ 53 := by
  obtain ⟨l1, l2⟩ := qexp_spec q hq
  have key := rne_sub_abs (q * zpow2 (52 - qexp q))
  unfold flPos
  rw [zpow2_eq] at key ⊢
  rw [zpow2_eq]
  set e := qexp q with he
  have hne : (2 : ℚ) ≠ 0 := by norm_num
  have hmul : (2 : ℚ) ^ (52 - e) * 2 ^ (e - 52) = 1 := by
    rw [← zpow_add₀ hne]; norm_num
  have expand : (rne (q * 2 ^ (52 - e)) : ℚ) * 2 ^ (e - 52) - q =
      ((rne (q * 2 ^ (52 - e)) : ℚ) - q * 2 ^ (52 - e)) * 2 ^ (e - 52) := by
    rw [sub_mul, mul_assoc, hmul, mul_one]
  rw [expand, abs_mul, abs_of_pos (show (0 : ℚ) < 2 ^ (e - 52) by positivity)]
  have step1 : |(rne (q * 2 ^ (52 - e)) : ℚ) - q * 2 ^ (52 - e)| * 2 ^ (e - 52) ≤
      1 / 2 * 2 ^ (e - 52) :=
    mul_le_mul_of_nonneg_right key (by positivity)
  have step2 : (1 / 2 : ℚ) * 2 ^ (e - 52) = 2 ^ e / 2 ^ 53 := by
    rw [show (1 / 2 : ℚ) = 2 ^ (-1 : ℤ) by norm_num, ← zpow_add₀ hne]
    rw [show (-1 + (e - 52) : ℤ) = e - 53 by ring, zpow_sub₀ hne]
    norm_num
  have step3 : (2 : ℚ) ^ e / 2 ^ 53 ≤ q / 2 ^ 53 := by gcongr
  calc |(rne (q * 2 ^ (52 - e)) : ℚ) - q * 2 ^ (52 - e)| * 2 ^ (e - 52) ≤
      1 / 2 * 2 ^ (e - 52) := step1
    _ = 2 ^ e / 2 ^ 53 := step2
    _ ≤ q / 2 ^ 53 := step3

theorem fl_zero : fl 0 = 0 := by simp [fl]

theorem fl_sub_abs (q : ℚ) (hq : 0 < q) : |fl q - q| ≤ q / 2 ^ 53 := by
  unfold fl
  rw [if_neg (by positivity), if_pos hq]
  exact flPos_sub_abs q hq

theorem fl_le_upper (q : ℚ) (hq : 0 ≤ q) : fl q ≤ q + q / 2 ^ 53 := by
  rcases eq_or_lt_of_le hq with h | h
  · rw [← h, fl_zero]; norm_num
  · have := abs_le.mp (fl_sub_abs q h)
    linarith [this.2]

theorem fl_ge_lower (q : ℚ) (hq : 0 ≤ q) : q - q / 2 ^ 53 ≤ fl q := by
  rcases eq_or_lt_of_le hq with h | h
  · rw [← h, fl_zero]; norm_num
  · have := abs_le.mp (fl_sub_abs q h)
    linarith [this.1]

theorem fl_nonneg (q : ℚ) (hq : 0 ≤ q) : 0 ≤ fl q := by
  have := fl_ge_lower q hq
  have hq' : q / 2 ^ 53 ≤ q / 1 := by
    rcases eq_or_lt_of_le hq with h | h
    · rw [← h]; norm_num
    · gcongr <;> norm_num
  rw [div_one] at hq'
  linarith

theorem fl_nonpos (q : ℚ) (hq : q ≤ 0) : fl q ≤ 0 := by
  unfold fl
  split
  · exact le_refl 0
  · next hne =>
    rw [if_neg (by intro h; exact hne (le_antisymm hq (le_of_lt h)))]
    have hpos : 0 < -q := by
      rcases eq_or_lt_of_le hq with h | h
      · exact absurd h hne
      · linarith
    have := fl_ge_lower (-q) (le_of_lt hpos)
    have hfl : fl (-q) = flPos (-q) := by
      unfold fl
      rw [if_neg (by positivity), if_pos hpos]
    rw [hfl] at this
    have hq' : -q / 2 ^ 53 ≤ -q / 1 := by gcongr <;> norm_num
    rw [div_one] at hq'
    linarith

theorem fl_le_bound (q c : ℚ) (h : q ≤ c) (hc : 0 ≤ c) : fl q ≤ c * (1 + 1 / 2 ^ 53) := by
  rcases le_or_lt q 0 with h0 | h0
  · have := fl_nonpos q h0
    nlinarith
  · have := fl_le_upper q (le_of_lt h0)
    have hd : q / 2 ^ 53 ≤ c / 2 ^ 53 := by gcongr
    have : fl q ≤ c + c / 2 ^ 53 := by linarith
    nlinarith [this]


theorem nlog2_le_52 (m : ℕ) (h1 : 0 < m) (h2 : m < 2 ^ 53) : nlog2 m ≤ 52 := by
  obtain ⟨lo, _⟩ := nlog2_spec m h1
  by_contra hgt
  have : 2 ^ 53 ≤ 2 ^ nlog2 m := Nat.pow_le_pow_right (by norm_num) (by omega)
  omega

theorem fl_dyadic (m : ℕ) (k : ℤ) (h1 : 0 < m) (h2 : m < 2 ^ 53) :
    fl ((m : ℚ) * 2 ^ k) = (m : ℚ) * 2 ^ k := by
  have hmq : (0 : ℚ) < m := by exact_mod_cast h1
  have hq : (0 : ℚ) < (m : ℚ) * 2 ^ k := by positivity
  obtain ⟨lo, hi⟩ := nlog2_spec m h1
  set l := nlog2 m with hl
  have hl52 : l ≤ 52 := nlog2_le_52 m h1 h2
  have he : qexp ((m : ℚ) * 2 ^ k) = (l : ℤ) + k := by
    apply qexp_unique
    · have hcast : (2 : ℚ) ^ (l : ℤ) ≤ (m : ℚ) := by
        rw [zpow_natCast]
        exact_mod_cast lo
      calc (2 : ℚ) ^ ((l : ℤ) + k) = 2 ^ (l : ℤ) * 2 ^ k := by
            rw [zpow_add₀ (by norm_num : (2:ℚ) ≠ 0)]
        _ ≤ (m : ℚ) * 2 ^ k := by
            have : (0 : ℚ) < 2 ^ k := by positivity
            nlinarith
    · have hcast : (m : ℚ) < 2 ^ ((l : ℤ) + 1) := by
        rw [show ((l : ℤ) + 1) = ((l + 1 : ℕ) : ℤ) by push_cast; ring, zpow_natCast]
        exact_mod_cast hi
      calc (m : ℚ) * 2 ^ k < 2 ^ ((l : ℤ) + 1) * 2 ^ k := by
            have : (0 : ℚ) < 2 ^ k := by positivity
            nlinarith
        _ = 2 ^ ((l : ℤ) + k + 1) := by
            rw [← zpow_add₀ (by norm_num : (2:ℚ) ≠ 0)]
            ring_nf
  unfold fl
  rw [if_neg (by positivity), if_pos hq]
  unfold flPos
  rw [he, zpow2_eq, zpow2_eq]
  have harg : (m : ℚ) * 2 ^ k * 2 ^ (52 - ((l : ℤ) + k)) = ((m * 2 ^ (52 - l) : ℕ) : ℚ) := by
    push_cast
    rw [← zpow_natCast (2 : ℚ) (52 - l)]
    rw [mul_assoc, ← zpow_add₀ (by norm_num : (2:ℚ) ≠ 0)]
    congr 2
    omega
  rw [harg]
  have hint : rne (((m * 2 ^ (52 - l) : ℕ) : ℤ) : ℚ) = ((m * 2 ^ (52 - l) : ℕ) : ℤ) :=
    rne_intCast _
  rw [Int.cast_natCast] at hint
  rw [hint]
  push_cast
  rw [← zpow_natCast (2 : ℚ) (52 - l)]
  rw [mul_assoc, ← zpow_add₀ (by norm_num : (2:ℚ) ≠ 0)]
  congr 2
  omega

theorem fl_natCast (m : ℕ) (h2 : m < 2 ^ 53) : fl (m : ℚ) = m := by
  rcases Nat.eq_zero_or_pos m with h | h
  · subst h; simpa using fl_zero
  · have := fl_dyadic m 0 h h2
    simpa using this

theorem fl_intCast (n : ℤ) (h0 : 0 ≤ n) (h2 : n < 2 ^ 53) : fl (n : ℚ) = n := by
  obtain ⟨m, rfl⟩ := Int.eq_ofNat_of_zero_le h0
  have : m < 2 ^ 53 := by exact_mod_cast h2
  exact_mod_cast fl_natCast m this

theorem isqrtAux_spec (n : ℕ) (fuel : ℕ) : ∀ lo hi, lo * lo ≤ n → n < hi * hi →
    lo < hi → hi ≤ lo + 2 ^ fuel →
    isqrtAux n fuel lo hi * isqrtAux n fuel lo hi ≤ n ∧
      n < (isqrtAux n fuel lo hi + 1) * (isqrtAux n fuel lo hi + 1) := by
  induction fuel with
  | zero =>
    intro lo hi hlo hhi hlt hle
    have : hi = lo + 1 := by omega
    subst this
    simpa [isqrtAux] using ⟨hlo, hhi⟩
  | succ fuel ih =>
    intro lo hi hlo hhi hlt hle
    by_cases hnear : hi ≤ lo + 1
    · have e0 : isqrtAux n (fuel + 1) lo hi = lo := by simp [isqrtAux, hnear]
      rw [e0]
      have : hi = lo + 1 := by omega
      subst this
      exact ⟨hlo, hhi⟩
    · have e1 : isqrtAux n (fuel + 1) lo hi =
          (if (lo + hi) / 2 * ((lo + hi) / 2) ≤ n then isqrtAux n fuel ((lo + hi) / 2) hi
            else isqrtAux n fuel lo ((lo + hi) / 2)) := by
        simp [isqrtAux, hnear]
      rw [e1]
      have hmid1 : lo < (lo + hi) / 2 := by omega
      have hmid2 : (lo + hi) / 2 < hi := by omega
      have hpow : lo + 2 ^ (fuel + 1) = lo + 2 ^ fuel + 2 ^ fuel := by
        have : (2 : ℕ) ^ (fuel + 1) = 2 ^ fuel + 2 ^ fuel := by
          rw [pow_succ]; ring
        omega
      split
      · next hyes =>
        exact ih ((lo + hi) / 2) hi hyes hhi hmid2 (by omega)
      · next hno =>
        exact ih lo ((lo + hi) / 2) hlo (by omega) hmid1 (by omega)

theorem isqrt_spec (n : ℕ) : isqrt n * isqrt n ≤ n ∧ n < (isqrt n + 1) * (isqrt n + 1) := by
  have h1 : (0 : ℕ) * 0 ≤ n := by omega
  have h2 : n < (n + 1) * (n + 1) := by nlinarith
  have h3 : (0 : ℕ) < n + 1 := by omega
  have h4 : n + 1 ≤ 0 + 2 ^ (n + 2) := by
    have := Nat.lt_two_pow n
    have : (2 : ℕ) ^ n ≤ 2 ^ (n + 2) := Nat.pow_le_pow_right (by norm_num) (by omega)
    omega
  exact isqrtAux_spec n (n + 2) 0 (n + 1) h1 h2 h3 h4

theorem isqrt_ge (c n : ℕ) (h : c * c ≤ n) : c ≤ isqrt n := by
  obtain ⟨_, hi⟩ := isqrt_spec n
  by_contra hlt
  have : isqrt n + 1 ≤ c := by omega
  nlinarith

theorem flSqrtNat_nonneg (n : ℕ) : 0 ≤ flSqrtNat n := by
  unfold flSqrtNat
  split
  · exact le_refl 0
  · positivity

theorem flSqrtNat_ge (c n : ℕ) (h : c * c ≤ n) : (c : ℚ) ≤ flSqrtNat n := by
  rcases Nat.eq_zero_or_pos n with h0 | h0
  · subst h0
    have : c = 0 := by nlinarith
    subst this
    simp [flSqrtNat]
  · unfold flSqrtNat
    rw [if_neg (by omega)]
    have hkey : c * 2 ^ (52 - nlog2 n / 2) ≤ isqrt (n * 4 ^ (52 - nlog2 n / 2)) := by
      apply isqrt_ge
      have : 4 ^ (52 - nlog2 n / 2) = 2 ^ (52 - nlog2 n / 2) * 2 ^ (52 - nlog2 n / 2) := by
        rw [show (4 : ℕ) = 2 * 2 by norm_num, mul_pow]
      nlinarith
    set k := 52 - nlog2 n / 2 with hk
    set s := isqrt (n * 4 ^ k) with hs
    have hm : (s : ℚ) ≤ (if 4 * (n * 4 ^ k) < (2 * s + 1) ^ 2 then s else s + 1 : ℕ) := by
      split <;> push_cast <;> linarith
    have hpow : (0 : ℚ) < ((2 ^ k : ℕ) : ℚ) := by positivity
    rw [le_div_iff₀ hpow]
    calc (c : ℚ) * ((2 ^ k : ℕ) : ℚ) = ((c * 2 ^ k : ℕ) : ℚ) := by push_cast; ring
      _ ≤ (s : ℚ) := by exact_mod_cast hkey
      _ ≤ _ := hm

/-! ## Claims -/

/-- C1: the claim says every `Verify` call consumes the session
regardless of outcome, so a second call on the same id always fails
with a not-found result.  The code deletes the entry only in the
success branch (`if success { Delete(id) }`), contradicting both the
spec and the comment above that line.  Concretely: after a failed
`Verify` (stored x = 50, submitted x = 100), the entry is still in the
store and a second `Verify` with the right offset succeeds instead of
failing as consumed. -/
theorem c1_verify_failure_keeps_session :
    (Verify ((NewMemoryStore 300).Set "a" ⟨"a", 50, 0, 0⟩ 0) "a" 100 5 0).1 = .ok false ∧
      (((Verify ((NewMemoryStore 300).Set "a" ⟨"a", 50, 0, 0⟩ 0) "a" 100 5 0).2.data "a").isSome
        = true) ∧
      (Verify (Verify ((NewMemoryStore 300).Set "a" ⟨"a", 50, 0, 0⟩ 0) "a" 100 5 0).2
          "a" 50 5 0).1 = .ok true := by
  with_unfolding_all decide

/-- C2: the claim says the placement step always returns
`0 <= x <= canvasW - 70` without failing or panicking for every canvas
with both sides at least 70.  Evaluating the placement block of
`Generate`: at `canvasW = 70` the collapsed-window fallback
`maxX = minX + PuzzleWidth` yields x = 18 on draw 0 and x = 87 on draw
69, both violating `x <= canvasW - 70 = 0`; at `canvasW = 140` the
window is empty but not inverted, so the code reaches `rand.Intn(0)`,
which panics (`none`). -/
theorem c2_placement_out_of_bounds_and_panic :
    choosePlacementX 70 0 = some 18 ∧ ¬((18 : ℤ) ≤ 70 - 70) ∧
      choosePlacementX 70 69 = some 87 ∧ ¬((87 : ℤ) ≤ 70 - 70) ∧
      choosePlacementX 140 0 = none := by
  with_unfolding_all decide

/-- C4 counterexample: the claim says the final piece blur divides by
the sum of the weights of the valid taps only.  At a mask whose
footprint is the single pixel (1,1) over a gray-160 piece, the code
(`applyGaussianBlurOnce`) produces 640/16 = 40, while the
re-normalising blur the spec describes produces 640/4 = 160. -/
theorem c4_blur_divides_by_full_kernel_sum :
    (applyGaussianBlurOnce c4piece oneDotMask).rgbaAt 1 1 = ⟨40, 40, 40, 255⟩ ∧
      (applyGaussianBlurOnceRenormSpec c4piece oneDotMask).rgbaAt 1 1 = ⟨160, 160, 160, 255⟩ := by
  with_unfolding_all decide

/-- C5: the claim (and the README: border alpha 0 means no border)
says the default fully-transparent border makes the border pass a
no-op.  The code overwrites every masked edge pixel with
RGBA(0,0,0,0), which the subsequent blur smears: on a black 10x10
canvas with a one-pixel mask at (1,1), the composite with the border
pass reads (0,0,0,255) at the hole while the composite with the pass
omitted reads (7,6,6,255). -/
theorem c5_border_pass_not_noop :
    (CreatePuzzleHoleWithMask blackCanvas10 0 0 oneDotMask).rgbaAt 1 1 = ⟨0, 0, 0, 255⟩ ∧
      (CreatePuzzleHoleWithMaskSansBorder blackCanvas10 0 0 oneDotMask).rgbaAt 1 1 =
        ⟨7, 6, 6, 255⟩ := by
  with_unfolding_all decide

/-- C7 counterexample: resizing an image to its own dimensions is not
always the identity.  At width `3 * 2^45 + 1` (height 1), the binary64
product `x * srcW` for column `x = 2^45 + 2^44 + 2^39 + 2^36` rounds up
by more than `srcW * 2^-8`, the back-mapped coordinate lands one ulp
above `x`, the bilinear weight becomes 511/65535, and the black source
pixel comes back as (1,1,1,255). -/
theorem c7_resize_self_not_identity :
    (ResizeImage c7src c7w 1).rgbaAt c7x 0 = ⟨1, 1, 1, 255⟩ ∧
      c7src.rgbaAt c7x 0 = ⟨0, 0, 0, 255⟩ ∧ c7src.w = c7w ∧ c7src.h = 1 := by
  with_unfolding_all decide

/-- The degenerate bilinear blend: with both fractional weights zero
the blend of `v` with three arbitrary neighbor channels returns `v`. -/
theorem blend_identity (v p q r : ℕ) (hv : v < 256) :
    ((v * 257 * (65535 - 0) + p * 257 * 0) / 65535 * (65535 - 0) / 65535 +
      (q * 257 * (65535 - 0) + r * 257 * 0) / 65535 * 0 / 65535) / 256 % 256 = v := by
  simp only [Nat.sub_zero, Nat.mul_zero, Nat.add_zero, Nat.zero_div,
    Nat.mul_div_cancel _ (show 0 < 65535 by norm_num)]
  have h1 : v * 257 / 256 = v := by omega
  rw [h1]
  omega

/-- C7 amended: for every image whose side lengths square to at most
`2^53` (so every product `x * srcW` is exactly representable in
binary64) and whose channels are 8-bit, resizing to the own dimensions
reproduces every in-bounds pixel exactly: the back-mapped source
coordinate is exactly `x`, the fractional weights vanish, and the
bilinear blend degenerates to `v * 257 / 256 % 256 = v`. -/
theorem c7_resize_self_identity (src : Img) (x y : ℤ)
    (hw1 : 1 ≤ src.w) (hh1 : 1 ≤ src.h)
    (hw2 : src.w * src.w ≤ 2 ^ 53) (hh2 : src.h * src.h ≤ 2 ^ 53)
    (hx0 : 0 ≤ x) (hxw : x < src.w) (hy0 : 0 ≤ y) (hyh : y < src.h)
    (hr : (src.pix x y).r < 256) (hg : (src.pix x y).g < 256)
    (hb : (src.pix x y).b < 256) (ha : (src.pix x y).a < 256) :
    (ResizeImage src src.w src.h).rgbaAt x y = src.rgbaAt x y := by
  have hwlt : src.w < 2 ^ 53 := by nlinarith [sq_nonneg (src.w - 1)]
  have hhlt : src.h < 2 ^ 53 := by nlinarith [sq_nonneg (src.h - 1)]
  have hflw : fl ((src.w : ℤ) : ℚ) = ((src.w : ℤ) : ℚ) := fl_intCast _ (by omega) hwlt
  have hflh : fl ((src.h : ℤ) : ℚ) = ((src.h : ℤ) : ℚ) := fl_intCast _ (by omega) hhlt
  have hflx : fl ((x : ℤ) : ℚ) = ((x : ℤ) : ℚ) := fl_intCast _ hx0 (by omega)
  have hfly : fl ((y : ℤ) : ℚ) = ((y : ℤ) : ℚ) := fl_intCast _ hy0 (by omega)
  have hxw53 : x * src.w < 2 ^ 53 := by
    nlinarith [mul_nonneg (show (0:ℤ) ≤ src.w - 1 - x by omega) (show (0:ℤ) ≤ src.w by omega)]
  have hyh53 : y * src.h < 2 ^ 53 := by
    nlinarith [mul_nonneg (show (0:ℤ) ≤ src.h - 1 - y by omega) (show (0:ℤ) ≤ src.h by omega)]
  have hwne : ((src.w : ℤ) : ℚ) ≠ 0 := by
    exact_mod_cast (show (src.w : ℤ) ≠ 0 by omega)
  have hhne : ((src.h : ℤ) : ℚ) ≠ 0 := by
    exact_mod_cast (show (src.h : ℤ) ≠ 0 by omega)
  have hprodx : fl ((x : ℚ) * ((src.w : ℤ) : ℚ)) = (x : ℚ) * ((src.w : ℤ) : ℚ) := by
    have hc : ((x * src.w : ℤ) : ℚ) = (x : ℚ) * ((src.w : ℤ) : ℚ) := by push_cast; ring
    rw [← hc]
    exact fl_intCast _ (mul_nonneg hx0 (by omega)) hxw53
  have hprody : fl ((y : ℚ) * ((src.h : ℤ) : ℚ)) = (y : ℚ) * ((src.h : ℤ) : ℚ) := by
    have hc : ((y * src.h : ℤ) : ℚ) = (y : ℚ) * ((src.h : ℤ) : ℚ) := by push_cast; ring
    rw [← hc]
    exact fl_intCast _ (mul_nonneg hy0 (by omega)) hyh53
  have hsrcX : fl (fl (fl ((x : ℤ) : ℚ) * fl ((src.w : ℤ) : ℚ)) / fl ((src.w : ℤ) : ℚ)) =
      ((x : ℤ) : ℚ) := by
    rw [hflx, hflw, hprodx, mul_div_assoc, div_self hwne, mul_one]
    exact hflx
  have hsrcY : fl (fl (fl ((y : ℤ) : ℚ) * fl ((src.h : ℤ) : ℚ)) / fl ((src.h : ℤ) : ℚ)) =
      ((y : ℤ) : ℚ) := by
    rw [hfly, hflh, hprody, mul_div_assoc, div_self hhne, mul_one]
    exact hfly
  have hgoX : goInt ((x : ℤ) : ℚ) = x := by
    simp [goInt]
  have hgoY : goInt ((y : ℤ) : ℚ) = y := by
    simp [goInt]
  have hu32 : u32 0 = 0 := by with_unfolding_all decide
  have hcond : 0 ≤ x ∧ x < src.w ∧ 0 ≤ y ∧ y < src.h := ⟨hx0, hxw, hy0, hyh⟩
  unfold ResizeImage Img.rgbaAt
  dsimp only
  rw [if_pos hcond, if_pos hcond, if_pos hcond]
  rw [hsrcX, hsrcY, hgoX, hgoY, hflx, hfly, sub_self, sub_self, fl_zero, zero_mul,
    fl_zero, hu32]
  rw [if_pos hcond]
  have heta : src.pix x y =
      ⟨(src.pix x y).r, (src.pix x y).g, (src.pix x y).b, (src.pix x y).a⟩ := rfl
  rw [heta]
  simp only [Pix.mk.injEq, show (2:ℕ) ^ 8 = 256 by norm_num]
  exact ⟨blend_identity _ _ _ _ hr, blend_identity _ _ _ _ hg,
    blend_identity _ _ _ _ hb, blend_identity _ _ _ _ ha⟩

/-- C7 amended theorem witness: resizing the 1x1 image with the single
pixel (9, 8, 7, 255) to 1x1 reproduces that pixel. -/
theorem c7_resize_self_identity_witness :
    (ResizeImage ⟨1, 1, fun _ _ => ⟨9, 8, 7, 255⟩⟩ 1 1).rgbaAt 0 0 =
      (⟨1, 1, fun _ _ => ⟨9, 8, 7, 255⟩⟩ : Img).rgbaAt 0 0 :=
  c7_resize_self_identity ⟨1, 1, fun _ _ => ⟨9, 8, 7, 255⟩⟩ 0 0
    (by norm_num) (by norm_num) (by norm_num) (by norm_num)
    (by norm_num) (by norm_num) (by norm_num) (by norm_num)
    (by norm_num) (by norm_num) (by norm_num) (by norm_num)

/-- C8 counterexample: the claim says no footprint pixel of any of the
four procedural masks lies on the outer 1-pixel border of the 70x70
frame.  The triangle predicate has side and bottom margins but no top
margin, and its zero-width apex pixel (35, 0) on row 0 is inside:
the triangle mask touches the top border. -/
theorem c8_triangle_apex_on_border :
    (GeneratePuzzleMaskProcedural (fun _ _ => 0) PuzzleType.triangle).alphaAt 35 0 = 255 := by
  with_unfolding_all decide

/-- The star predicate compares the distance from the centre against
`maxDist`; whatever the angular offset `co` computed from `atan2`,
`maxDist` stays below 34: the inner radius is below 11, the radius
span below 16.3, the interpolation factor at most `1 + 2 ^ (-53)`, and
each rounding inflates by at most a factor `1 + 2 ^ (-53)`. -/
theorem star_maxDist_lt (co : ℚ) (hco : 0 ≤ co) :
    fl (fl (27 * c04) + fl (fl (27 - fl (27 * c04)) * fl (1 - fl (co / cPiFifth)))) < 34 := by
  have hI : fl (27 * c04) ≤ 11 := by with_unfolding_all decide
  have hO0 : (0 : ℚ) ≤ fl (27 - fl (27 * c04)) := by with_unfolding_all decide
  have hO : fl (27 - fl (27 * c04)) ≤ 163 / 10 := by with_unfolding_all decide
  have hpi : (0 : ℚ) < cPiFifth := by with_unfolding_all decide
  have hu0 : 0 ≤ fl (co / cPiFifth) := fl_nonneg _ (div_nonneg hco (le_of_lt hpi))
  have ht : fl (1 - fl (co / cPiFifth)) ≤ 1 * (1 + 1 / 2 ^ 53) :=
    fl_le_bound _ 1 (by linarith) (by norm_num)
  have hOt : fl (27 - fl (27 * c04)) * fl (1 - fl (co / cPiFifth)) ≤
      163 / 10 * (1 * (1 + 1 / 2 ^ 53)) :=
    le_trans (mul_le_mul_of_nonneg_left ht hO0)
      (mul_le_mul_of_nonneg_right hO (by norm_num))
  have hP : fl (fl (27 - fl (27 * c04)) * fl (1 - fl (co / cPiFifth))) ≤
      163 / 10 * (1 * (1 + 1 / 2 ^ 53)) * (1 + 1 / 2 ^ 53) :=
    fl_le_bound _ _ hOt (by norm_num)
  have hmax := fl_le_bound _ _ (add_le_add hI hP) (by norm_num :
    (0 : ℚ) ≤ 11 + 163 / 10 * (1 * (1 + 1 / 2 ^ 53)) * (1 + 1 / 2 ^ 53))
  have hfin : (11 + 163 / 10 * (1 * (1 + 1 / 2 ^ 53)) * (1 + 1 / 2 ^ 53)) *
      (1 + 1 / 2 ^ 53) < 34 := by norm_num
  linarith

/-- Any point at squared distance at least `34 * 34 = 1156` from the
centre (35, 35) is outside the star, for every `atan2` implementation:
the computed distance is at least 34 while `maxDist` stays below 34. -/
theorem isInsideStar_far (atan2F : ℚ → ℚ → ℚ) (x y : ℤ)
    (h : 1156 ≤ (x - 35) ^ 2 + (y - 35) ^ 2) :
    isInsideStar atan2F x y = false := by
  unfold isInsideStar
  dsimp only
  simp only [decide_eq_false_iff_not]
  intro hle
  have h34 : (34 : ℚ) ≤ flSqrtNat ((x - 35) ^ 2 + (y - 35) ^ 2).toNat := by
    have hn : 34 * 34 ≤ ((x - 35) ^ 2 + (y - 35) ^ 2).toNat := by omega
    exact_mod_cast flSqrtNat_ge 34 _ hn
  exact absurd hle
    (not_le.mpr (lt_of_lt_of_le (star_maxDist_lt _ (abs_nonneg _)) h34))

set_option maxHeartbeats 4000000 in
/-- C8 amended: each of the four procedural 70x70 masks has a
non-empty opaque footprint; the hexagon, trapezoid and star footprints
keep a full 1-pixel margin off the outer border; the triangle footprint
stays off columns 0 and 69 and off row 69 but its apex pixel (35, 0)
lies on row 0.  The star parts hold for every `atan2` implementation
that returns 0 at the centre. -/
theorem c8_masks_nonempty_and_margins (atan2F : ℚ → ℚ → ℚ) (h0 : atan2F 0 0 = 0) :
    ((GeneratePuzzleMaskProcedural atan2F PuzzleType.triangle).alphaAt 35 0 = 255 ∧
      ∀ i : Fin 70,
        (GeneratePuzzleMaskProcedural atan2F PuzzleType.triangle).alphaAt 0 (i : ℤ) = 0 ∧
        (GeneratePuzzleMaskProcedural atan2F PuzzleType.triangle).alphaAt 69 (i : ℤ) = 0 ∧
        (GeneratePuzzleMaskProcedural atan2F PuzzleType.triangle).alphaAt (i : ℤ) 69 = 0) ∧
    ((GeneratePuzzleMaskProcedural atan2F PuzzleType.hexagon).alphaAt 35 35 = 255 ∧
      ∀ i : Fin 70,
        (GeneratePuzzleMaskProcedural atan2F PuzzleType.hexagon).alphaAt 0 (i : ℤ) = 0 ∧
        (GeneratePuzzleMaskProcedural atan2F PuzzleType.hexagon).alphaAt 69 (i : ℤ) = 0 ∧
        (GeneratePuzzleMaskProcedural atan2F PuzzleType.hexagon).alphaAt (i : ℤ) 0 = 0 ∧
        (GeneratePuzzleMaskProcedural atan2F PuzzleType.hexagon).alphaAt (i : ℤ) 69 = 0) ∧
    ((GeneratePuzzleMaskProcedural atan2F PuzzleType.trapezoid).alphaAt 35 35 = 255 ∧
      ∀ i : Fin 70,
        (GeneratePuzzleMaskProcedural atan2F PuzzleType.trapezoid).alphaAt 0 (i : ℤ) = 0 ∧
        (GeneratePuzzleMaskProcedural atan2F PuzzleType.trapezoid).alphaAt 69 (i : ℤ) = 0 ∧
        (GeneratePuzzleMaskProcedural atan2F PuzzleType.trapezoid).alphaAt (i : ℤ) 0 = 0 ∧
        (GeneratePuzzleMaskProcedural atan2F PuzzleType.trapezoid).alphaAt (i : ℤ) 69 = 0) ∧
    ((GeneratePuzzleMaskProcedural atan2F PuzzleType.star).alphaAt 35 35 = 255 ∧
      ∀ i : Fin 70,
        (GeneratePuzzleMaskProcedural atan2F PuzzleType.star).alphaAt 0 (i : ℤ) = 0 ∧
        (GeneratePuzzleMaskProcedural atan2F PuzzleType.star).alphaAt 69 (i : ℤ) = 0 ∧
        (GeneratePuzzleMaskProcedural atan2F PuzzleType.star).alphaAt (i : ℤ) 0 = 0 ∧
        (GeneratePuzzleMaskProcedural atan2F PuzzleType.star).alphaAt (i : ℤ) 69 = 0) := by
  have htri : GeneratePuzzleMaskProcedural atan2F PuzzleType.triangle =
      GeneratePuzzleMaskProcedural (fun _ _ => 0) PuzzleType.triangle := rfl
  have hhex : GeneratePuzzleMaskProcedural atan2F PuzzleType.hexagon =
      GeneratePuzzleMaskProcedural (fun _ _ => 0) PuzzleType.hexagon := rfl
  have htrap : GeneratePuzzleMaskProcedural atan2F PuzzleType.trapezoid =
      GeneratePuzzleMaskProcedural (fun _ _ => 0) PuzzleType.trapezoid := rfl
  rw [htri, hhex, htrap]
  refine ⟨⟨by with_unfolding_all decide, by with_unfolding_all decide⟩,
    ⟨by with_unfolding_all decide, by with_unfolding_all decide⟩,
    ⟨by with_unfolding_all decide, by with_unfolding_all decide⟩,
    ?_, ?_⟩
  · have hstar : isInsideStar atan2F 35 35 = true := by
      unfold isInsideStar
      dsimp only
      rw [show ((35 - 35 : ℤ) : ℚ) = 0 by norm_num, h0]
      with_unfolding_all decide
    simp [AlphaMask.alphaAt, GeneratePuzzleMaskProcedural, isInsidePuzzle, hstar]
  · intro i
    have hfar : ∀ a b : ℤ, 1156 ≤ (a - 35) ^ 2 + (b - 35) ^ 2 →
        (GeneratePuzzleMaskProcedural atan2F PuzzleType.star).alphaAt a b = 0 := by
      intro a b hf
      have hfs : isInsideStar atan2F a b = false := isInsideStar_far _ _ _ hf
      simp [GeneratePuzzleMaskProcedural, AlphaMask.alphaAt, isInsidePuzzle, hfs]
    exact ⟨hfar 0 (i : ℤ) (by nlinarith [sq_nonneg ((i : ℤ) - 35)]),
      hfar 69 (i : ℤ) (by nlinarith [sq_nonneg ((i : ℤ) - 35)]),
      hfar (i : ℤ) 0 (by nlinarith [sq_nonneg ((i : ℤ) - 35)]),
      hfar (i : ℤ) 69 (by nlinarith [sq_nonneg ((i : ℤ) - 35)])⟩

/-- C8 amended theorem witness: the same footprint and margin facts at
the concrete `atan2` implementation that is constantly zero. -/
theorem c8_masks_nonempty_and_margins_witness :
    ((GeneratePuzzleMaskProcedural (fun _ _ => 0) PuzzleType.triangle).alphaAt 35 0 = 255 ∧
      ∀ i : Fin 70,
        (GeneratePuzzleMaskProcedural (fun _ _ => 0) PuzzleType.triangle).alphaAt 0 (i : ℤ) = 0 ∧
        (GeneratePuzzleMaskProcedural (fun _ _ => 0) PuzzleType.triangle).alphaAt 69 (i : ℤ) = 0 ∧
        (GeneratePuzzleMaskProcedural (fun _ _ => 0) PuzzleType.triangle).alphaAt (i : ℤ) 69 = 0) ∧
    ((GeneratePuzzleMaskProcedural (fun _ _ => 0) PuzzleType.hexagon).alphaAt 35 35 = 255 ∧
      ∀ i : Fin 70,
        (GeneratePuzzleMaskProcedural (fun _ _ => 0) PuzzleType.hexagon).alphaAt 0 (i : ℤ) = 0 ∧
        (GeneratePuzzleMaskProcedural (fun _ _ => 0) PuzzleType.hexagon).alphaAt 69 (i : ℤ) = 0 ∧
        (GeneratePuzzleMaskProcedural (fun _ _ => 0) PuzzleType.hexagon).alphaAt (i : ℤ) 0 = 0 ∧
        (GeneratePuzzleMaskProcedural (fun _ _ => 0) PuzzleType.hexagon).alphaAt (i : ℤ) 69 = 0) ∧
    ((GeneratePuzzleMaskProcedural (fun _ _ => 0) PuzzleType.trapezoid).alphaAt 35 35 = 255 ∧
      ∀ i : Fin 70,
        (GeneratePuzzleMaskProcedural (fun _ _ => 0) PuzzleType.trapezoid).alphaAt 0 (i : ℤ) = 0 ∧
        (GeneratePuzzleMaskProcedural (fun _ _ => 0) PuzzleType.trapezoid).alphaAt 69 (i : ℤ) = 0 ∧
        (GeneratePuzzleMaskProcedural (fun _ _ => 0) PuzzleType.trapezoid).alphaAt (i : ℤ) 0 = 0 ∧
        (GeneratePuzzleMaskProcedural (fun _ _ => 0) PuzzleType.trapezoid).alphaAt (i : ℤ) 69 = 0) ∧
    ((GeneratePuzzleMaskProcedural (fun _ _ => 0) PuzzleType.star).alphaAt 35 35 = 255 ∧
      ∀ i : Fin 70,
        (GeneratePuzzleMaskProcedural (fun _ _ => 0) PuzzleType.star).alphaAt 0 (i : ℤ) = 0 ∧
        (GeneratePuzzleMaskProcedural (fun _ _ => 0) PuzzleType.star).alphaAt 69 (i : ℤ) = 0 ∧
        (GeneratePuzzleMaskProcedural (fun _ _ => 0) PuzzleType.star).alphaAt (i : ℤ) 0 = 0 ∧
        (GeneratePuzzleMaskProcedural (fun _ _ => 0) PuzzleType.star).alphaAt (i : ℤ) 69 = 0) :=
  c8_masks_nonempty_and_margins (fun _ _ => 0) rfl

/-- C3: on a fresh session (a store hit for `id` returning the record
`d`), `Verify` with the default tolerance of 5 succeeds exactly when
the submitted offset is within 5 pixels of the stored `PositionX`
(so `Verify(id, trueX+5)` returns true and `Verify(id, trueX+6)`
returns false), and its error is nil either way. -/
theorem c3_verify_tolerance_boundary (store : MemoryStore) (id : String) (userX now : ℤ)
    (d : CaptchaData) (h : store.Get id now = some d) :
    ((VerifyWithTolerance store id userX now).1 = .ok true ↔
        absGo (userX - d.positionX) ≤ 5) ∧
      ((VerifyWithTolerance store id userX now).1 = .ok false ↔
        ¬absGo (userX - d.positionX) ≤ 5) := by
  unfold VerifyWithTolerance Verify
  rw [h]
  by_cases hd : absGo (userX - d.positionX) ≤ 5
  · simp [hd]
  · simp [hd]

/-- Witness for C3 at a concrete fresh session with trueX = 100 and
userX = 105 (the upper tolerance boundary). -/
theorem c3_verify_tolerance_boundary_witness :
    ((VerifyWithTolerance ((NewMemoryStore 300).Set "a" ⟨"a", 100, 0, 0⟩ 0) "a" 105 0).1 =
        .ok true ↔ absGo ((105 : ℤ) - 100) ≤ 5) ∧
      ((VerifyWithTolerance ((NewMemoryStore 300).Set "a" ⟨"a", 100, 0, 0⟩ 0) "a" 105 0).1 =
        .ok false ↔ ¬absGo ((105 : ℤ) - 100) ≤ 5) :=
  c3_verify_tolerance_boundary _ "a" 105 0 ⟨"a", 100, 0, 0⟩ (by with_unfolding_all decide)

/-- C10: calling `Generate` on a service whose `Init` has not completed
(`initialized = false`) returns the typed not-initialized error and
leaves the session store untouched, whatever the draws, encoder, pow
implementation, uuid and clock are. -/
theorem c10_generate_uninitialized_errors (s : CaptchaService) (powF : ℚ → ℚ)
    (encode : Img → Except String String) (rBg rX rY rShape : ℕ) (uuid : String) (now : ℤ)
    (store : MemoryStore) (h : s.initialized = false) :
    s.Generate powF encode rBg rX rY rShape uuid now store =
      some (.error "captcha service not initialized, call Init() first", store) := by
  unfold CaptchaService.Generate
  rw [h]
  simp

/-- Witness for C10 at the freshly constructed (uninitialised)
service. -/
theorem c10_generate_uninitialized_errors_witness :
    NewCaptchaService.Generate (fun _ => 0) (fun _ => .ok "") 0 0 0 0 "u" 0
        (NewMemoryStore 300) =
      some (.error "captcha service not initialized, call Init() first", NewMemoryStore 300) :=
  c10_generate_uninitialized_errors NewCaptchaService (fun _ => 0) (fun _ => .ok "") 0 0 0 0 "u" 0
    (NewMemoryStore 300) rfl

/-- C9: `CreatePuzzleHoleWithMask` works on a fresh copy of the canvas
(the input, being a value of the embedding, is never mutated), and
every pixel of the result outside the 70x70 placement window
`[x, x+70) x [y, y+70)` equals the corresponding pixel of the input
canvas: the wash, border and both blur iterations only write inside
the window. -/
theorem c9_hole_preserves_outside_window (bg : Img) (x y : ℤ) (mask : AlphaMask) (tx ty : ℤ)
    (h : ¬(x ≤ tx ∧ tx < x + 70 ∧ y ≤ ty ∧ ty < y + 70)) :
    (CreatePuzzleHoleWithMask bg x y mask).rgbaAt tx ty = bg.rgbaAt tx ty := by
  have hw : ¬(0 ≤ tx - x ∧ tx - x < 70 ∧ 0 ≤ ty - y ∧ ty - y < 70) := by omega
  simp only [CreatePuzzleHoleWithMask, applyGaussianBlurToHole, applyGaussianBlurToHoleOnce,
    addHoleBorder, washHole, Img.rgbaAt]
  by_cases hb : 0 ≤ tx ∧ tx < bg.w ∧ 0 ≤ ty ∧ ty < bg.h
  · rw [if_pos hb, if_pos hb]
    rw [if_neg (fun hc => hw ⟨hc.1, hc.2.1, hc.2.2.1, hc.2.2.2.1⟩)]
    rw [if_neg (fun hc => hw ⟨hc.1, hc.2.1, hc.2.2.1, hc.2.2.2.1⟩)]
    rw [if_neg (fun hc => hw ⟨hc.1, hc.2.1, hc.2.2.1, hc.2.2.2.1⟩)]
    rw [if_neg (fun hc => hw ⟨hc.1, hc.2.1, hc.2.2.1, hc.2.2.2.1⟩)]
  · rw [if_neg hb, if_neg hb]

/-- Witness for C9: a point 1000 columns right of the window. -/
theorem c9_hole_preserves_outside_window_witness :
    (CreatePuzzleHoleWithMask blackCanvas10 0 0 oneDotMask).rgbaAt 1000 0 =
      blackCanvas10.rgbaAt 1000 0 :=
  c9_hole_preserves_outside_window blackCanvas10 0 0 oneDotMask 1000 0 (by omega)

theorem foldl_add_ite {α : Type} (l : List α) (p : α → Prop) [DecidablePred p] (v : α → ℕ) :
    ∀ acc : ℕ, l.foldl (fun a t => if p t then a + v t else a) acc =
      acc + (l.map fun t => if p t then v t else 0).sum := by
  induction l with
  | nil => intro acc; simp
  | cons hd tl ih =>
    intro acc
    simp only [List.foldl_cons, List.map_cons, List.sum_cons]
    by_cases hp : p hd
    · rw [if_pos hp, if_pos hp, ih]
      omega
    · rw [if_neg hp, if_neg hp, ih]
      omega

/-- C4 (amended): at every in-frame, in-bounds masked pixel, the final
piece blur produces exactly the sum of `weight * channel` over the taps
whose frame-clamped position is inside the mask (all other taps
contributing zero), divided by the full kernel sum 16 — not by the
weight actually contributed — with alpha forced to 255. -/
theorem c4_blur_full_divisor (piece : Img) (mask : AlphaMask) (tx ty : ℤ)
    (h1 : 0 ≤ tx) (h2 : tx < 70) (h3 : 0 ≤ ty) (h4 : ty < 70)
    (h5 : tx < piece.w) (h6 : ty < piece.h) (h7 : 0 < mask.alphaAt tx ty) :
    (applyGaussianBlurOnce piece mask).pix tx ty =
      ⟨validTapSum piece mask tx ty Pix.r / 16, validTapSum piece mask tx ty Pix.g / 16,
        validTapSum piece mask tx ty Pix.b / 16, 255⟩ := by
  show (if _ then _ else Pix.zero) = _
  rw [if_pos ⟨h1, h2, h3, h4, h5, h6⟩, if_pos h7]
  unfold validTapSum
  dsimp only
  rw [foldl_add_ite kernelTaps
    (fun t => 0 < mask.alphaAt (clamp70 (tx + t.1)) (clamp70 (ty + t.2.1)))
    (fun t => t.2.2 * Pix.r (piece.rgbaAt (clamp70 (tx + t.1)) (clamp70 (ty + t.2.1)))) 0]
  rw [foldl_add_ite kernelTaps
    (fun t => 0 < mask.alphaAt (clamp70 (tx + t.1)) (clamp70 (ty + t.2.1)))
    (fun t => t.2.2 * Pix.g (piece.rgbaAt (clamp70 (tx + t.1)) (clamp70 (ty + t.2.1)))) 0]
  rw [foldl_add_ite kernelTaps
    (fun t => 0 < mask.alphaAt (clamp70 (tx + t.1)) (clamp70 (ty + t.2.1)))
    (fun t => t.2.2 * Pix.b (piece.rgbaAt (clamp70 (tx + t.1)) (clamp70 (ty + t.2.1)))) 0]
  simp

/-- Witness for C4 (amended) at the one-dot mask and gray piece. -/
theorem c4_blur_full_divisor_witness :
    (applyGaussianBlurOnce c4piece oneDotMask).pix 1 1 =
      ⟨validTapSum c4piece oneDotMask 1 1 Pix.r / 16,
        validTapSum c4piece oneDotMask 1 1 Pix.g / 16,
        validTapSum c4piece oneDotMask 1 1 Pix.b / 16, 255⟩ :=
  c4_blur_full_divisor c4piece oneDotMask 1 1 (by norm_num) (by norm_num) (by norm_num)
    (by norm_num) (by with_unfolding_all decide) (by with_unfolding_all decide)
    (by with_unfolding_all decide)

theorem setRGBA_w (img : Img) (x y : ℤ) (p : Pix) : (img.setRGBA x y p).w = img.w := rfl

theorem setRGBA_h (img : Img) (x y : ℤ) (p : Pix) : (img.setRGBA x y p).h = img.h := rfl

theorem antiAliasStep_some_dims (powF : ℚ → ℚ) (mask : AlphaMask) (img : Img) (pos : ℤ × ℤ)
    (img2 : Img) (h : antiAliasStep powF mask img pos = some img2) :
    img2.w = img.w ∧ img2.h = img.h := by
  unfold antiAliasStep at h
  dsimp only at h
  split_ifs at h <;> (cases h <;> exact ⟨rfl, rfl⟩)

theorem smoothDiagonalStep_some_dims (mask : AlphaMask) (img : Img) (pos : ℤ × ℤ)
    (img2 : Img) (h : smoothDiagonalStep mask img pos = some img2) :
    img2.w = img.w ∧ img2.h = img.h := by
  unfold smoothDiagonalStep at h
  dsimp only at h
  split_ifs at h <;> (cases h <;> exact ⟨rfl, rfl⟩)

theorem globalSmoothStep_dims (mask : AlphaMask) (img : Img) (pos : ℤ × ℤ) :
    (globalSmoothStep mask img pos).w = img.w ∧ (globalSmoothStep mask img pos).h = img.h := by
  unfold globalSmoothStep
  dsimp only
  split_ifs <;> exact ⟨rfl, rfl⟩

theorem foldlM_option_dims {α : Type} (f : Img → α → Option Img)
    (hf : ∀ img a img2, f img a = some img2 → img2.w = img.w ∧ img2.h = img.h) :
    ∀ (l : List α) (img img2 : Img), l.foldlM f img = some img2 →
      img2.w = img.w ∧ img2.h = img.h := by
  intro l
  induction l with
  | nil =>
    intro img img2 h
    simp only [List.foldlM_nil, Option.pure_def, Option.some.injEq] at h
    subst h
    exact ⟨rfl, rfl⟩
  | cons hd tl ih =>
    intro img img2 h
    rw [List.foldlM_cons] at h
    cases hmid : f img hd with
    | none => rw [hmid] at h; cases h
    | some mid =>
      rw [hmid] at h
      simp only [Option.bind_eq_bind, Option.some_bind] at h
      obtain ⟨w1, h1⟩ := hf img hd mid hmid
      obtain ⟨w2, h2⟩ := ih mid img2 h
      exact ⟨w2.trans w1, h2.trans h1⟩

theorem foldl_globalSmooth_dims (mask : AlphaMask) :
    ∀ (l : List (ℤ × ℤ)) (img : Img),
      (l.foldl (globalSmoothStep mask) img).w = img.w ∧
        (l.foldl (globalSmoothStep mask) img).h = img.h := by
  intro l
  induction l with
  | nil => intro img; exact ⟨rfl, rfl⟩
  | cons hd tl ih =>
    intro img
    rw [List.foldl_cons]
    obtain ⟨w1, h1⟩ := globalSmoothStep_dims mask img hd
    obtain ⟨w2, h2⟩ := ih (globalSmoothStep mask img hd)
    exact ⟨w2.trans w1, h2.trans h1⟩

theorem antiAliasEdges_some_dims (powF : ℚ → ℚ) (piece : Img) (mask : AlphaMask) (img2 : Img)
    (h : antiAliasEdges powF piece mask = some img2) : img2.w = piece.w ∧ img2.h = piece.h := by
  unfold antiAliasEdges at h
  cases h1 : (rasterPositions 0 70).foldlM (antiAliasStep powF mask) piece with
  | none => rw [h1] at h; cases h
  | some p1 =>
    rw [h1] at h
    simp only [Option.bind_eq_bind, Option.some_bind, bind, Option.bind] at h
    cases h2 : (rasterPositions 1 68).foldlM (smoothDiagonalStep mask) p1 with
    | none => rw [h2] at h; cases h
    | some p2 =>
      rw [h2] at h
      simp only [Option.some_bind, pure, Option.pure_def] at h
      rw [Option.some.injEq] at h
      subst h
      obtain ⟨a1, b1⟩ := foldlM_option_dims _ (antiAliasStep_some_dims powF mask) _ _ _ h1
      obtain ⟨a2, b2⟩ := foldlM_option_dims _ (smoothDiagonalStep_some_dims mask) _ _ _ h2
      obtain ⟨a3, b3⟩ := foldl_globalSmooth_dims mask (rasterPositions 1 68) p2
      exact ⟨(a3.trans a2).trans a1, (b3.trans b2).trans b1⟩

theorem addSimpleBorder_some_dims (powF : ℚ → ℚ) (piece : Img) (mask : AlphaMask) (img2 : Img)
    (h : addSimpleBorder powF piece mask = some img2) :
    img2.w = piece.w ∧ img2.h = piece.h := by
  unfold addSimpleBorder at h
  exact antiAliasEdges_some_dims powF (addSimpleBorderBase piece mask) mask img2 h

/-- The per-pixel alpha contract of claim C6, stated over the optional
result of the piece pipeline (`none` is the anti-alias panic, on which
no image is returned at all): where the mask is positive the final
pixel has alpha exactly 255, and where the mask is zero the final
pixel is the fully transparent zero pixel, so no colour information
leaves the footprint and no partial alpha occurs. -/
def optionPieceAlphaOk (o : Option Img) (mask : AlphaMask) (px py : ℤ) : Prop :=
  match o with
  | none => True
  | some res =>
    (0 < mask.alphaAt px py → (res.pix px py).a = 255) ∧
      (mask.alphaAt px py = 0 → res.pix px py = ⟨0, 0, 0, 0⟩)

/-- C6: for every pow implementation, canvas, placement and mask, and
every pixel of the 70x70 frame, the extracted piece satisfies the
binary-alpha contract: alpha 255 exactly on the mask footprint and the
zero pixel off it (the final two-pass blur writes every pixel of the
piece and forces this). -/
theorem c6_piece_alpha_binary (powF : ℚ → ℚ) (bg : Img) (x y : ℤ) (mask : AlphaMask)
    (px py : Fin 70) :
    optionPieceAlphaOk (ExtractPuzzlePieceWithMask powF bg x y mask) mask px py := by
  unfold ExtractPuzzlePieceWithMask
  cases hb : addSimpleBorder powF (pieceCopy bg x y mask) mask with
  | none => simp [optionPieceAlphaOk]
  | some p1 =>
    obtain ⟨hw, hh⟩ := addSimpleBorder_some_dims powF _ mask p1 hb
    have hw70 : p1.w = 70 := hw
    have hh70 : p1.h = 70 := hh
    simp only [Option.map_some']
    unfold optionPieceAlphaOk
    simp only [applyGaussianBlur, applyGaussianBlurOnce]
    have hcond : (0 : ℤ) ≤ (px : ℤ) ∧ (px : ℤ) < 70 ∧ (0 : ℤ) ≤ (py : ℤ) ∧ (py : ℤ) < 70 ∧
        (px : ℤ) < p1.w ∧ (py : ℤ) < p1.h := by
      rw [hw70, hh70]
      have := px.isLt
      have := py.isLt
      omega
    constructor
    · intro hm
      show Pix.a _ = 255
      split
      · rfl
      · next hc => exact absurd hcond hc
    · intro hm
      show _ = (⟨0, 0, 0, 0⟩ : Pix)
      split
      · rw [hm, if_neg (lt_irrefl 0)]
      · rfl
